import Mathlib

/-!
Verification of the build-parallelism coordination core of the ninja fork
(jobserver client/pool and its MAKEFLAGS parser, the status table, the
canonical-path value type, and the Win32 subprocess supervisor).

Strings are embedded as `List Char` (the bytes of a `std::string`).
Machine integers (`int`, `int64_t`) are embedded as `Int`; `size_t`
counters as `Nat`. All values appearing in the claims are far below the
overflow boundaries, so no wrap-around modelling is required.
-/

namespace NinjaSpec

/-! ### Basic string helpers shared by the embeddings -/

/-- Decimal digit character for a digit value below ten (`'0' + d`). -/
def digitChar (d : Nat) : Char := Char.ofNat (48 + d)

/-- Fuel-driven worker for decimal rendering; the fuel only serves to
make the recursion structural, and any fuel above the value suffices. -/
def natDecimalAux : Nat → Nat → List Char
  | 0, _ => []
  | fuel + 1, n =>
    if n < 10 then [digitChar n]
    else natDecimalAux fuel (n / 10) ++ [digitChar (n % 10)]

/-- Decimal rendering of a `Nat`, as produced by `snprintf` with a
`%d` / `%zu` style conversion for a non-negative value. -/
def natDecimal (n : Nat) : List Char := natDecimalAux n.succ n

/-- Characters on which `Jobserver::ParseMakeFlagsValue` tokenizes its
input (ASCII space and tab, per the `strchr` calls). -/
def isSepChar (c : Char) : Bool := c = ' ' || c = '\t'

/-- A word contains no separator characters. -/
def noSep (s : List Char) : Bool := s.all (fun c => !isSepChar c)

/-- Tokenizer worker: walk the characters, accumulating the current word
in reverse; a separator emits the accumulated word when it is non-empty.
This mirrors the `strchr`-based loop of `ParseMakeFlagsValue`, which
pushes only the non-empty pieces between separators. -/
def splitArgsAux : List Char → List Char → List (List Char)
  | [], acc => if acc.isEmpty then [] else [acc.reverse]
  | c :: rest, acc =>
    if isSepChar c then
      if acc.isEmpty then splitArgsAux rest []
      else acc.reverse :: splitArgsAux rest []
    else splitArgsAux rest (c :: acc)

/-- Decompose the input into space/tab separated words, dropping empty
words (jobserver.cc, lines 72-93). -/
def splitArgs (s : List Char) : List (List Char) := splitArgsAux s []

/-- GetPrefixedValue (jobserver.cc): if `input` starts with the
characters of the second argument, return the rest of the input. -/
def getPrefixedValue : List Char → List Char → Option (List Char)
  | input, [] => some input
  | [], _ :: _ => none
  | c :: cs, p :: ps => if c = p then getPrefixedValue cs ps else none

/-- Accumulator step of a greedy decimal scan. -/
def digitStep (acc : Nat) (c : Char) : Nat := acc * 10 + (c.toNat - 48)

/-- A character list does not start with a decimal digit (so a greedy
digit scan stops right away). -/
def notDigitStart : List Char → Bool
  | [] => true
  | c :: _ => !c.isDigit

/-- Greedy decimal scan of a `%d` conversion: consume leading digits,
accumulating their value, and stop at the first non-digit. -/
def scanNat : Nat → List Char → Nat × List Char
  | acc, [] => (acc, [])
  | acc, c :: cs =>
    if c.isDigit then scanNat (digitStep acc c) cs else (acc, c :: cs)

/-- Unsigned part of a `%d` conversion: fails unless at least one digit
is present. -/
def scanNatStrict : List Char → Option (Nat × List Char)
  | [] => none
  | c :: rest => if c.isDigit then some (scanNat 0 (c :: rest)) else none

/-- One `sscanf` `%d` conversion applied to the start of a token (tokens
contain no whitespace, so the whitespace-skipping part of `%d` never
fires): an optional sign followed by at least one digit. -/
def scanIntD (s : List Char) : Option (Int × List Char) :=
  match s with
  | [] => none
  | c :: rest =>
    if c = '-' then
      match scanNatStrict rest with
      | some (n, r) => some (-(n : Int), r)
      | none => none
    else if c = '+' then
      match scanNatStrict rest with
      | some (n, r) => some ((n : Int), r)
      | none => none
    else
      match scanNatStrict (c :: rest) with
      | some (n, r) => some ((n : Int), r)
      | none => none

/-! ### Jobserver data model

The header `jobserver.h` is not among the provided sources; the shapes
below are modelled from the specification (section 3) and from the uses
in jobserver.cc, jobserver-posix.cc and jobserver_test.cc. -/

/-- Modelled from the spec: the `Jobserver::Config::Mode` enumeration of
the missing header jobserver.h. Spec section 3: Mode is one of None,
FileDescriptors, Fifo, Win32Semaphore. The jobserver tests create a pool
with `kModeFileDescriptors` and jobserver-posix.cc serves the descriptor
pair under the name `kModePipe`; the two names denote the same
descriptor-pair mode, embedded here as the single constructor
`kModeFileDescriptors`. -/
inductive JMode
  | kModeNone
  | kModeFileDescriptors
  | kModePosixFifo
  | kModeWin32Semaphore
deriving DecidableEq, Repr

/-- Modelled from the spec: `Jobserver::Config` of the missing header
jobserver.h (spec section 3): a mode plus either a (read, write)
descriptor pair or an opaque path string. -/
structure JConfig where
  mode : JMode
  read_fd : Int
  write_fd : Int
  path : List Char
deriving DecidableEq, Repr

/-- Default-constructed `Config()`: no mode, no descriptors, empty path.
The descriptor defaults are not observable through any claim. -/
def JConfig.default : JConfig := ⟨JMode.kModeNone, -1, -1, []⟩

/-- Modelled from the spec: `Jobserver::Slot` of the missing header
jobserver.h (spec section 3): Invalid, Implicit, or Explicit(byte). -/
inductive Slot
  | invalid
  | implicit
  | explicit (b : UInt8)
deriving DecidableEq, Repr

/-! ### Jobserver MAKEFLAGS parser (jobserver.cc) -/

/-- Word prefix recognizing the modern authentication option. -/
def jobserverAuthFlag : List Char := ("--jobserver-auth=").toList

/-- Word prefix recognizing the legacy descriptor-pair option. -/
def jobserverFdsFlag : List Char := ("--jobserver-fds=").toList

/-- GetFileDescriptorPair (jobserver.cc, lines 41-55) without the config
update: the result of `sscanf(pair, "%d,%d", ...)` when it returns 2.
Trailing characters after the second integer are ignored, exactly as
`sscanf` ignores unconsumed input. -/
def getFileDescriptorPair (input : List Char) : Option (Int × Int) :=
  match scanIntD input with
  | none => none
  | some (r, rest1) =>
    match rest1 with
    | ',' :: rest2 =>
      match scanIntD rest2 with
      | none => none
      | some (w, _) => some (r, w)
    | _ => none

/-- GetFileDescriptorPair's effect on the config: on a successful scan,
store both descriptors and set the mode to `kModeNone` when either one
is negative (explicit disable) and to `kModeFileDescriptors` otherwise.
(The partial stores `sscanf` can perform on a failed scan are not
modelled; no caller reads the descriptors after a failed scan.) -/
def applyFileDescriptorPair (input : List Char) (config : JConfig) : Option JConfig :=
  match getFileDescriptorPair input with
  | none => none
  | some (r, w) =>
    some { config with
           read_fd := r, write_fd := w,
           mode := if r < 0 ∨ w < 0 then JMode.kModeNone
                   else JMode.kModeFileDescriptors }

/-- Error message produced for a malformed legacy descriptor pair. -/
def invalidPairMsg (value : List Char) : List Char :=
  ("Invalid file descriptor pair [").toList ++ value ++ [']']

/-- Body of the argument loop of ParseMakeFlagsValue (jobserver.cc,
lines 146-181) for one word: `--jobserver-auth=` words first try the
descriptor pair, then `fifo:`, then fall back to a Win32 semaphore name;
`--jobserver-fds=` words accept only the descriptor pair and fail
otherwise; all other words are ignored. -/
def stepWord (config : JConfig) (arg : List Char) : Except (List Char) JConfig :=
  match getPrefixedValue arg jobserverAuthFlag with
  | some value =>
    match applyFileDescriptorPair value config with
    | some c2 => .ok c2
    | none =>
      match getPrefixedValue value (("fifo:").toList) with
      | some fifo_path => .ok { config with mode := JMode.kModePosixFifo, path := fifo_path }
      | none => .ok { config with mode := JMode.kModeWin32Semaphore, path := value }
  | none =>
    match getPrefixedValue arg jobserverFdsFlag with
    | some value =>
      match applyFileDescriptorPair value config with
      | some c2 => .ok { c2 with mode := JMode.kModeFileDescriptors }
      | none => .error (invalidPairMsg value)
    | none => .ok config

/-- Left-to-right processing of all words; the last recognized word
wins, except that a malformed legacy pair aborts with an error. -/
def parseLoop : JConfig → List (List Char) → Except (List Char) JConfig
  | config, [] => .ok config
  | config, arg :: rest =>
    match stepWord config arg with
    | .ok c2 => parseLoop c2 rest
    | .error e => .error e

/-- Jobserver::ParseMakeFlagsValue (jobserver.cc, lines 62-184). A null
or empty input yields the default config; a first word that does not
start with a dash and contains the letter `n` signals dry-run and yields
the default config; otherwise the words are processed in order. -/
def parseMakeFlagsValue (makeflags_env : List Char) : Except (List Char) JConfig :=
  match splitArgs makeflags_env with
  | [] => .ok JConfig.default
  | (c0 :: w0) :: rest =>
    if c0 ≠ '-' ∧ 'n' ∈ (c0 :: w0) then .ok JConfig.default
    else parseLoop JConfig.default ((c0 :: w0) :: rest)
  | [] :: rest => parseLoop JConfig.default ([] :: rest)

/-! ### Jobserver client and pool (jobserver-posix.cc)

The deterministic model below abstracts the kernel as the byte queue of
the single pipe/FIFO backing the pool; syscall failure modes that the
claims mention (EINTR retries, write errors) are modelled separately by
the trace-based `tryAcquireTrace` / `releaseTrace` functions. -/

/-- Token byte written by `FillSlots` (the character `+`). -/
def plusByte : UInt8 := 43

/-- Kernel objects backing one jobserver pool: the inheritable pipe
descriptors (-1 when absent), the FIFO node path (empty when absent),
and the bytes currently buffered in the pipe/FIFO. -/
structure JobserverOS where
  pipeReadFd : Int
  pipeWriteFd : Int
  fifoPath : List Char
  buffer : List UInt8

/-- IsFifoDescriptor (jobserver-posix.cc, lines 30-34): in this model a
descriptor refers to a FIFO exactly when it is one of the pool's pipe
endpoints. -/
def isFifoDescriptor (os : JobserverOS) (fd : Int) : Bool :=
  fd = os.pipeReadFd || fd = os.pipeWriteFd

/-- State of a `PosixJobserverClient`: the `has_implicit_slot_` flag,
plus the bytes its (duplicated, non-blocking, close-on-exec) read
descriptor can still deliver. -/
structure ClientState where
  has_implicit_slot : Bool
  pipe : List UInt8
deriving DecidableEq

/-- PosixJobserverClient::TryAcquire (jobserver-posix.cc, lines 81-95)
against the deterministic kernel: the non-blocking single-byte read
returns the front byte of the pipe when it is non-empty, and fails with
EAGAIN otherwise. -/
def tryAcquire (st : ClientState) : Slot × ClientState :=
  if st.has_implicit_slot then
    (Slot.implicit, { st with has_implicit_slot := false })
  else
    match st.pipe with
    | [] => (Slot.invalid, st)
    | b :: rest => (Slot.explicit b, { st with pipe := rest })

/-- Slots returned by `k` successive TryAcquire calls. -/
def acquireList : ClientState → Nat → List Slot
  | _, 0 => []
  | st, k + 1 =>
    let r := tryAcquire st
    r.1 :: acquireList r.2 k

/-- Jobserver::Client::Create with PosixJobserverClient::InitWithPipeFds
and InitWithFifo (jobserver-posix.cc, lines 115-162 and 297-313). The
absent header names the descriptor-pair mode `kModePipe`; as explained
at `JMode` it coincides with `kModeFileDescriptors`. Duplication and
opening of healthy endpoints succeed in this model; their failure paths
are not exercised by any claim. -/
def clientCreate (config : JConfig) (os : JobserverOS) : Option ClientState :=
  if config.mode = JMode.kModeFileDescriptors then
    if isFifoDescriptor os config.read_fd && isFifoDescriptor os config.write_fd then
      some ⟨true, os.buffer⟩
    else none
  else if config.mode = JMode.kModePosixFifo then
    if config.path.isEmpty then none
    else if config.path = os.fifoPath then some ⟨true, os.buffer⟩
    else none
  else none

/-- State of a `PosixJobserverPool` after successful creation. -/
structure PoolState where
  job_count : Nat
  read_fd : Int
  write_fd : Int
  fifo : List Char
  buffer : List UInt8
deriving DecidableEq

/-- PosixJobserverPool::InitWithPipe followed by FillSlots
(jobserver-posix.cc, lines 208-224 and 262-280): the kernel assigns the
inheritable blocking descriptors `r` and `w` to the fresh pipe, then
`slot_count - 1` token bytes are written into it. -/
def poolInitWithPipe (slot_count : Nat) (r w : Nat) : PoolState :=
  ⟨slot_count, (r : Int), (w : Int), [], List.replicate (slot_count - 1) plusByte⟩

/-- PosixJobserverPool::InitWithFifo followed by FillSlots
(jobserver-posix.cc, lines 226-256): the FIFO node is created at
`<tmp_dir>/NinjaFIFO<pid>` (the caller of the model resolves `$TMPDIR`
with its `/tmp` default), `read_fd_` stays -1, and `write_fd_` is the
read-write descriptor keeping the FIFO alive. -/
def poolInitWithFifo (slot_count : Nat) (tmp_dir : List Char) (pid wfd : Nat) : PoolState :=
  ⟨slot_count, -1, (wfd : Int), tmp_dir ++ ("/NinjaFIFO").toList ++ natDecimal pid,
   List.replicate (slot_count - 1) plusByte⟩

/-- Jobserver::Pool::Create (jobserver-posix.cc, lines 316-335):
fewer than 2 slots is rejected, then the mode picks the pipe or FIFO
initializer. -/
def poolCreate (num_job_slots : Nat) (mode : JMode) (r w : Nat) (tmp_dir : List Char)
    (pid wfd : Nat) : Except (List Char) PoolState :=
  if num_job_slots < 2 then .error (("At least 2 job slots needed").toList)
  else if mode = JMode.kModeFileDescriptors then .ok (poolInitWithPipe num_job_slots r w)
  else if mode = JMode.kModePosixFifo then .ok (poolInitWithFifo num_job_slots tmp_dir pid wfd)
  else .error (("Unsupported jobserver mode").toList)

/-- Kernel objects a client of this pool observes. -/
def PoolState.os (p : PoolState) : JobserverOS := ⟨p.read_fd, p.write_fd, p.fifo, p.buffer⟩

/-- PosixJobserverPool::GetEnvMakeFlagsValue (jobserver-posix.cc, lines
175-197): the `fifo:` form when a FIFO exists, overwritten by the
dual-option descriptor form when both pipe descriptors are valid. -/
def getEnvMakeFlagsValue (p : PoolState) : List Char :=
  let r1 : List Char :=
    if p.fifo.isEmpty then []
    else (" -j").toList ++ natDecimal p.job_count ++ (" --jobserver-auth=fifo:").toList ++ p.fifo
  if 0 ≤ p.read_fd ∧ 0 ≤ p.write_fd then
    (" -j").toList ++ natDecimal p.job_count
      ++ (" --jobserver-fds=").toList
      ++ natDecimal p.read_fd.toNat ++ ',' :: natDecimal p.write_fd.toNat
      ++ (" --jobserver-auth=").toList
      ++ natDecimal p.read_fd.toNat ++ ',' :: natDecimal p.write_fd.toNat
  else r1

/-! ### Syscall-trace model of TryAcquire and Release -/

/-- Outcome of one `read(fd, buf, 1)` call on the non-blocking read
endpoint. -/
inductive ReadResult
  | ok (b : UInt8)
  | eof
  | eintr
  | eagain
  | fail
deriving DecidableEq

/-- First outcome that is not an EINTR interruption, with the remaining
trace; `none` when the trace is exhausted (the C loop would still be
retrying). -/
def firstNonEintr : List ReadResult → Option (ReadResult × List ReadResult)
  | [] => none
  | ReadResult.eintr :: rest => firstNonEintr rest
  | r :: rest => some (r, rest)

/-- PosixJobserverClient::TryAcquire (jobserver-posix.cc, lines 81-95)
against an arbitrary trace of read-syscall outcomes: when the implicit
slot is held it is consumed and returned without any I/O; otherwise one
non-blocking single-byte read is performed, retried only while it
reports EINTR; a 1-byte read yields `Explicit(byte)` and every other
outcome (EAGAIN, 0 bytes, error) yields an Invalid slot. -/
def tryAcquireTrace (has_implicit_slot : Bool) (tr : List ReadResult) :
    Option (Slot × Bool × List ReadResult) :=
  if has_implicit_slot then some (Slot.implicit, false, tr)
  else
    match firstNonEintr tr with
    | none => none
    | some (ReadResult.ok b, rest) => some (Slot.explicit b, false, rest)
    | some (_, rest) => some (Slot.invalid, false, rest)

/-- Outcome of one `write(fd, buf, 1)` call on the write endpoint. -/
inductive WriteResult
  | ok
  | eintr
  | fail
deriving DecidableEq

/-- First outcome that is not an EINTR interruption, with the remaining
trace. -/
def firstNonEintrW : List WriteResult → Option (WriteResult × List WriteResult)
  | [] => none
  | WriteResult.eintr :: rest => firstNonEintrW rest
  | r :: rest => some (r, rest)

/-- PosixJobserverClient::Release (jobserver-posix.cc, lines 97-113)
against a trace of write-syscall outcomes. The result carries the new
`has_implicit_slot_` flag, the remaining trace, and the bytes actually
delivered to the pipe. An Invalid slot is a no-op; an Implicit slot is
reclaimed locally (the code asserts the flag was clear; that legality
condition appears as a hypothesis of the theorems); an Explicit slot
writes its byte, retrying on EINTR, and a write error is swallowed with
no state change. -/
def releaseTrace (has_implicit_slot : Bool) (slot : Slot) (tr : List WriteResult) :
    Option (Bool × List WriteResult × List UInt8) :=
  match slot with
  | Slot.invalid => some (has_implicit_slot, tr, [])
  | Slot.implicit => some (true, tr, [])
  | Slot.explicit b =>
    match firstNonEintrW tr with
    | none => none
    | some (WriteResult.ok, rest) => some (has_implicit_slot, rest, [b])
    | some (_, rest) => some (has_implicit_slot, rest, [])

/-- One observable client interaction for the implicit-slot accounting.
The Bool is the client's `has_implicit_slot_` flag; the Nat counts the
Implicit slots currently held by the application. An acquire hands an
Implicit slot to the application exactly when the returned slot is
Implicit; a release of an Implicit slot requires the application to
hold one (slots are move-only resources) and follows the code through
`releaseTrace`. -/
inductive ClientStep : Bool × Nat → Bool × Nat → Prop
  | acquire (h : Bool) (k : Nat) (tr : List ReadResult) (s : Slot) (h2 : Bool)
      (rest : List ReadResult) :
      tryAcquireTrace h tr = some (s, h2, rest) →
      ClientStep (h, k) (h2, k + (if s = Slot.implicit then 1 else 0))
  | release (h : Bool) (k : Nat) (s : Slot) (tr : List WriteResult) (h2 : Bool)
      (rest : List WriteResult) (bs : List UInt8) :
      (s = Slot.implicit → 1 ≤ k) →
      releaseTrace h s tr = some (h2, rest, bs) →
      ClientStep (h, k) (h2, k - (if s = Slot.implicit then 1 else 0))

/-! ### Status table (status_table.h / status_table.cc) -/

/-- INT64_MAX, the start time attributed to null entries by the queue
comparator. -/
def I64MAX : Int := 9223372036854775807

/-- CommandValue (status_table.h, lines 191-201): start time, monotonic
insertion id, description. The unordered-map key (the opaque command
pointer) is not part of the value. -/
structure CommandValue where
  start_time_ms : Int
  command_id : Nat
  description : List Char
deriving DecidableEq

/-- Sort key read by CommandValuePtrLess: a null pointer behaves as
start time INT64_MAX with id 0 (status_table.h, lines 215-227). -/
def cvKey : Option CommandValue → Int × Nat
  | none => (I64MAX, 0)
  | some c => (c.start_time_ms, c.command_id)

/-- Strict comparison of keys: start times first, insertion ids on a
tie, exactly as CommandValuePtrLess computes it. -/
def keyLt (a b : Int × Nat) : Prop := a.1 < b.1 ∨ (a.1 = b.1 ∧ a.2 < b.2)

instance : DecidableRel keyLt := fun a b => by unfold keyLt; infer_instance

/-- CommandValuePtrLess (status_table.h, lines 215-227). -/
def ptrLess (a b : Option CommandValue) : Prop := keyLt (cvKey a) (cvKey b)

instance : DecidableRel ptrLess := fun a b => by unfold ptrLess; infer_instance

/-- The bounded max-priority-queue modelled as a list sorted in
decreasing key order: the head is the top (a greatest element) and
popping is taking the tail. This is the observable contract of
`std::priority_queue` under CommandValuePtrLess; entries comparing
equal are the interchangeable null entries. -/
def insertDesc (x : Option CommandValue) :
    List (Option CommandValue) → List (Option CommandValue)
  | [] => [x]
  | y :: ys => if ptrLess y x then x :: y :: ys else y :: insertDesc x ys

/-- Start time the selection loop reads from a queue entry. -/
def topStart : Option CommandValue → Int
  | none => I64MAX
  | some c => c.start_time_ms

/-- Body of the selection loop of StatusTable::PrintPending
(status_table.cc, lines 89-98): the candidate replaces the top exactly
when the top is null or has a larger start time. -/
def selectStep (q : List (Option CommandValue)) (cv : CommandValue) :
    List (Option CommandValue) :=
  match q with
  | [] => []
  | top :: rest =>
    if top = none ∨ cv.start_time_ms < topStart top then insertDesc (some cv) rest
    else top :: rest

/-- The queue after scanning the pending commands in map iteration
order, starting from `max_commands` null entries (status_table.cc,
lines 86-98). -/
def selectOldest (max_commands : Nat) (pending : List CommandValue) :
    List (Option CommandValue) :=
  pending.foldl selectStep (List.replicate max_commands none)

/-- Drain of the queue into `older_commands_` (status_table.cc, lines
103-111): pop order is the decreasing key order, null entries are
skipped. -/
def olderCommands (q : List (Option CommandValue)) : List CommandValue := q.filterMap id

/-- The commands as rendered top-to-bottom: the drained list walked in
reverse (status_table.cc, lines 115-117). -/
def renderedCommands (max_commands : Nat) (pending : List CommandValue) : List CommandValue :=
  (olderCommands (selectOldest max_commands pending)).reverse

/-- Elapsed-time formatting of PrintPending (status_table.cc, lines
119-133): `??????` for a negative elapsed time, `%d.%ds` below one
minute (tenths by integer division by 100), `%dm%ds` otherwise. -/
def formatElapsed (elapsed_ms : Int) : List Char :=
  if elapsed_ms < 0 then ("??????").toList
  else
    let e := elapsed_ms.toNat
    if e < 60000 then
      natDecimal (e / 1000) ++ '.' :: natDecimal (e % 1000 / 100) ++ ['s']
    else
      natDecimal (e / 60000) ++ 'm' :: natDecimal (e % 60000 / 1000) ++ ['s']

/-- One rendered table line (status_table.cc, lines 140-154): the
elapsed string right-justified in a 6-column field (longer strings are
not truncated), then the separator, then the description. -/
def pendingLine (build_time_ms : Int) (cv : CommandValue) : List Char :=
  let elapsed := formatElapsed (build_time_ms - cv.start_time_ms)
  let justified :=
    if elapsed.length < 6 then List.replicate (6 - elapsed.length) ' ' ++ elapsed
    else elapsed
  justified ++ (" | ").toList ++ cv.description

/-- Terminal operations emitted by the table (the overridable methods
of StatusTable that tests record). -/
inductive ROp
  | printOnNextLine (line : List Char)
  | clearNextLine
  | moveUp (lines_count : Nat)
  | printOnCurrentLine (line : List Char)
  | flush
deriving DecidableEq

/-- Mutable state of a StatusTable (status_table.h, lines 173-206).
Command pointers are opaque; they are modelled as naturals. The list
order of `pending_commands` is the insertion order; the unordered map's
iteration order is a separate parameter of `updateTable`. -/
structure TableState where
  max_commands : Nat
  refresh_timeout_ms : Int
  last_command_count : Nat
  last_command_id : Nat
  last_update_time_ms : Int
  last_status : List Char
  pending_commands : List (Nat × CommandValue)
deriving DecidableEq

/-- A fresh StatusTable for the given configuration. -/
def tableInit (max_commands : Nat) (refresh_timeout_ms : Int) : TableState :=
  ⟨max_commands, refresh_timeout_ms, 0, 0, -1, [], []⟩

/-- StatusTable::SetStatus (status_table.cc, lines 58-60). -/
def setStatus (st : TableState) (status : List Char) : TableState :=
  { st with last_status := status }

/-- StatusTable::CommandStarted (status_table.cc, lines 43-50). -/
def commandStarted (st : TableState) (command : Nat) (start_time_ms : Int)
    (description : List Char) : TableState :=
  { st with
    last_command_id := st.last_command_id + 1,
    pending_commands := st.pending_commands ++
      [(command, ⟨start_time_ms, st.last_command_id + 1, description⟩)] }

/-- StatusTable::PrintPending (status_table.cc, lines 77-178), emitting
the terminal operations. `iteration` is the order in which the
unordered map enumerates the pending command values; the container
leaves it unspecified, so theorems quantify over the permutations. -/
def printPending (st : TableState) (build_time_ms : Int) (iteration : List CommandValue) :
    TableState × List ROp :=
  if st.max_commands = 0 then (st, [])
  else
    let rendered := renderedCommands st.max_commands iteration
    let printOps := rendered.map (fun cv => ROp.printOnNextLine (pendingLine build_time_ms cv))
    let count0 := rendered.length
    let clears := List.replicate (st.last_command_count - count0) ROp.clearNextLine
    let count := max count0 st.last_command_count
    let tailOps :=
      if 0 < count then [ROp.moveUp count, ROp.printOnCurrentLine st.last_status, ROp.flush]
      else [ROp.flush]
    ({ st with last_command_count := count0 }, printOps ++ clears ++ tailOps)

/-- StatusTable::UpdateTable (status_table.cc, lines 62-75): rate-limit
by the refresh timeout, then record the update time and repaint. -/
def updateTable (st : TableState) (build_time_ms : Int) (iteration : List CommandValue) :
    TableState × List ROp :=
  if 0 ≤ st.last_update_time_ms ∧
      build_time_ms - st.last_update_time_ms < st.refresh_timeout_ms then (st, [])
  else printPending { st with last_update_time_ms := build_time_ms } build_time_ms iteration

/-! ### Canonical path (canonical_path.h / canonical_path.cc)

The canonicalizer itself, `CanonicalizePath` of util.cc, is declared
and called by the sources but its implementation file is absent, so it
is modelled from the specification below. -/

/-- Path splitting on '/' separators, dropping empty pieces; this
realizes spec step (ii), collapsing consecutive separators (and a
leading `//`, which on POSIX collapses to `/`). -/
def splitPathAux : List Char → List Char → List (List Char)
  | [], acc => if acc.isEmpty then [] else [acc.reverse]
  | c :: rest, acc =>
    if c = '/' then
      if acc.isEmpty then splitPathAux rest []
      else acc.reverse :: splitPathAux rest []
    else splitPathAux rest (c :: acc)

/-- Modelled from the spec: stack-based component resolution of
CanonicalizePath (spec section 4.D, steps (iii) and (iv)): `.` segments
are eliminated; `..` pops the preceding real segment when one exists,
and is otherwise preserved literally (unresolvable `..` of a relative
path, and `..` at an absolute root). -/
def canonComponents : List (List Char) → List (List Char) → List (List Char)
  | stack, [] => stack.reverse
  | stack, comp :: rest =>
    if comp = ['.'] then canonComponents stack rest
    else if comp = ['.', '.'] then
      match stack with
      | top :: stack2 =>
        if top = ['.', '.'] then canonComponents (comp :: top :: stack2) rest
        else canonComponents stack2 rest
      | [] => canonComponents [comp] rest
    else canonComponents (comp :: stack) rest

/-- Join components with single '/' separators. -/
def joinSlash : List (List Char) → List Char
  | [] => []
  | [c] => c
  | c :: rest => c ++ '/' :: joinSlash rest

/-- Modelled from the spec: CanonicalizePath of util.cc (POSIX variant,
spec section 4.D): collapse separators, eliminate `.`, resolve `..`
against preceding segments without crossing an absolute root (absolute
`/..` is preserved literally), collapse a leading `//`, and leave an
otherwise empty result as `.` exactly when the original was a non-empty
self-reference (the empty input stays empty; an emptied absolute path
is the root `/`). Step (i), back-slash conversion with slash-bits
recording, applies only on Windows. -/
def canonicalizePath (path : List Char) : List Char :=
  let absolute := path.head? = some '/'
  let comps := canonComponents [] (splitPathAux path [])
  if absolute then '/' :: joinSlash comps
  else if comps.isEmpty then
    if path.isEmpty then [] else ['.']
  else joinSlash comps

/-- CanonicalPath (canonical_path.h; constructors in canonical_path.cc,
lines 32-57; on POSIX the slash-bits output is ignored and
slash_bits() is 0). -/
structure CanonicalPath where
  value : List Char
deriving DecidableEq

/-- CanonicalPath::CanonicalPath(std::string&&) (canonical_path.cc,
lines 41-48, POSIX variant). -/
def CanonicalPath.ofString (path : List Char) : CanonicalPath :=
  ⟨canonicalizePath path⟩

/-! ### Win32 subprocess supervisor (subprocess.h / subprocess-win32.cc) -/

/-- Outcome of the CreateProcessA call inside Subprocess::Start. -/
inductive CreateProcessResult
  | ok
  | fileNotFound
  | invalidParameter
  | otherError
deriving DecidableEq

/-- State of a Win32 Subprocess: the console flag, the two output pipes
(open flag plus accumulated `buf_`), the `combined_output_` buffer of
subprocess.h (line 68), and whether a child handle exists. -/
structure WSubprocess where
  use_console : Bool
  stdout_open : Bool
  stderr_open : Bool
  stdout_buf : List Char
  stderr_buf : List Char
  combined_output : List Char
  has_child : Bool
deriving DecidableEq

/-- Subprocess::Done (subprocess-win32.cc, lines 225-227): both pipes
closed. For console subprocesses the pipes are never opened, so they
count as closed from creation. -/
def wDone (p : WSubprocess) : Bool := !p.stdout_open && !p.stderr_open

/-- The stderr message stored on a program-not-found start
(subprocess-win32.cc, lines 142-145). -/
def createProcessFailedMsg : List Char :=
  ("CreateProcess failed: The system cannot find the file specified.\n").toList

/-- Subprocess::Start (subprocess-win32.cc, lines 84-168): a
non-console subprocess gets two fresh pipes; ERROR_FILE_NOT_FOUND
closes both pipes, stores the message in the stderr buffer, and still
returns success with no child handle; the remaining CreateProcess
failures are fatal (modelled as `none`); on success the child handle is
stored. -/
def wStart (use_console : Bool) (res : CreateProcessResult) : Option WSubprocess :=
  let p0 : WSubprocess := ⟨use_console, !use_console, !use_console, [], [], [], false⟩
  match res with
  | CreateProcessResult.ok => some { p0 with has_child := true }
  | CreateProcessResult.fileNotFound =>
    some { p0 with
           stdout_open := false,
           stderr_open := false,
           stderr_buf := createProcessFailedMsg }
  | _ => none

/-- SubprocessSet: the running list and the finished queue
(subprocess.h, lines 181-182). -/
structure WSubprocessSet where
  running : List WSubprocess
  finished : List WSubprocess
deriving DecidableEq

/-- SubprocessSet::Add (subprocess-win32.cc, lines 256-267): a started
subprocess without a child handle goes straight into the finished
queue, the others into the running list. -/
def wAdd (s : WSubprocessSet) (use_console : Bool) (res : CreateProcessResult) :
    Option (WSubprocess × WSubprocessSet) :=
  match wStart use_console res with
  | none => none
  | some p =>
    if p.has_child then some (p, { s with running := s.running ++ [p] })
    else some (p, { s with finished := s.finished ++ [p] })

/-- A completion event for one output pipe: data arrived, or the pipe
broke because the child closed its end. -/
inductive PipeEvent
  | data (bytes : List Char)
  | broken
deriving DecidableEq

/-- Subprocess::OutputPipe::OnPipeReady (subprocess-win32.cc, lines
178-206) on the designated stream: data is appended to that stream's
`buf_` only — this translation unit never appends to the
`combined_output_` field of subprocess.h — and a broken pipe closes the
stream. A completion for an already-closed pipe cannot occur (no
operation is pending on it) and leaves the state unchanged. -/
def wOnPipeReady (p : WSubprocess) (isStdout : Bool) (ev : PipeEvent) : WSubprocess :=
  if isStdout then
    if !p.stdout_open then p
    else
      match ev with
      | PipeEvent.data bs => { p with stdout_buf := p.stdout_buf ++ bs }
      | PipeEvent.broken => { p with stdout_open := false }
  else
    if !p.stderr_open then p
    else
      match ev with
      | PipeEvent.data bs => { p with stderr_buf := p.stderr_buf ++ bs }
      | PipeEvent.broken => { p with stderr_open := false }

/-- SubprocessSet::DoWork (subprocess-win32.cc, lines 269-303) servicing
one pipe completion for the running subprocess at position `i`: the
pipe handler runs, and a now-Done subprocess moves from `running` to
the back of the `finished` queue. -/
def wDoWorkEvent (s : WSubprocessSet) (i : Nat) (isStdout : Bool) (ev : PipeEvent) :
    WSubprocessSet :=
  match s.running[i]? with
  | none => s
  | some p =>
    let p2 := wOnPipeReady p isStdout ev
    if wDone p2 then
      { s with running := s.running.eraseIdx i, finished := s.finished ++ [p2] }
    else
      { s with running := s.running.set i p2 }

/-- SubprocessSet::NextFinished (subprocess-win32.cc, lines 305-311):
pop the front of the finished queue. -/
def wNextFinished (s : WSubprocessSet) : Option WSubprocess × WSubprocessSet :=
  match s.finished with
  | [] => (none, s)
  | p :: rest => (some p, { s with finished := rest })

/-- One observable transition of a SubprocessSet. -/
inductive WSetStep : WSubprocessSet → WSubprocessSet → Prop
  | add (s : WSubprocessSet) (use_console : Bool) (res : CreateProcessResult)
      (p : WSubprocess) (s2 : WSubprocessSet) :
      wAdd s use_console res = some (p, s2) → WSetStep s s2
  | work (s : WSubprocessSet) (i : Nat) (isStdout : Bool) (ev : PipeEvent) :
      WSetStep s (wDoWorkEvent s i isStdout ev)
  | next (s : WSubprocessSet) :
      WSetStep s (wNextFinished s).2

/-! ### Lemmas about decimal rendering and scanning -/

theorem digitChar_isDigit (d : Nat) (h : d < 10) : (digitChar d).isDigit = true := by
  interval_cases d <;> decide

theorem digitChar_not_sep (d : Nat) (h : d < 10) : isSepChar (digitChar d) = false := by
  interval_cases d <;> decide

theorem digitChar_toNat (d : Nat) (h : d < 10) : (digitChar d).toNat = 48 + d := by
  interval_cases d <;> decide

theorem natDecimalAux_fuel_irrel :
    ∀ f g n, n < f → n < g → natDecimalAux f n = natDecimalAux g n := by
  intro f
  induction f with
  | zero => omega
  | succ f ih =>
    intro g n hf hg
    cases g with
    | zero => omega
    | succ g =>
      simp only [natDecimalAux]
      split

      case isTrue => rfl
      case isFalse h =>
        have hn : 0 < n := by omega
        have hdiv : n / 10 < n := Nat.div_lt_self hn (by omega)
        rw [ih g (n / 10) (by omega) (by omega)]

theorem natDecimal_low (n : Nat) (h : n < 10) : natDecimal n = [digitChar n] := by
  simp [natDecimal, natDecimalAux, h]

theorem natDecimal_high (n : Nat) (h : 10 ≤ n) :
    natDecimal n = natDecimal (n / 10) ++ [digitChar (n % 10)] := by
  have hdiv : n / 10 < n := Nat.div_lt_self (by omega) (by omega)
  show natDecimalAux (n + 1) n = _
  simp only [natDecimalAux]
  rw [if_neg (by omega)]
  rw [natDecimalAux_fuel_irrel n (n / 10 + 1) (n / 10) (by omega) (by omega)]
  rfl

theorem natDecimal_all_digit (n : Nat) : ∀ c ∈ natDecimal n, c.isDigit = true := by
  induction n using Nat.strong_induction_on with
  | _ n ih =>
    by_cases h : n < 10
    · rw [natDecimal_low n h]
      intro c hc
      rw [List.mem_singleton] at hc
      subst hc
      exact digitChar_isDigit n h
    · rw [natDecimal_high n (by omega)]
      intro c hc
      rcases List.mem_append.mp hc with h1 | h1
      · exact ih (n / 10) (Nat.div_lt_self (by omega) (by omega)) c h1
      · rw [List.mem_singleton] at h1
        subst h1
        exact digitChar_isDigit _ (Nat.mod_lt _ (by omega))

theorem natDecimal_ne_nil (n : Nat) : natDecimal n ≠ [] := by
  by_cases h : n < 10
  · rw [natDecimal_low n h]; simp
  · rw [natDecimal_high n (by omega)]; simp

theorem isDigit_not_sep {c : Char} (h : c.isDigit = true) : isSepChar c = false := by
  have h1 : c ≠ ' ' := by intro he; subst he; revert h; decide
  have h2 : c ≠ '\t' := by intro he; subst he; revert h; decide
  rw [isSepChar]
  simp only [Bool.or_eq_false_iff, decide_eq_false_iff_not]
  exact ⟨h1, h2⟩

theorem natDecimal_noSep (n : Nat) : noSep (natDecimal n) = true := by
  rw [noSep, List.all_eq_true]
  intro c hc
  rw [Bool.not_eq_true']
  exact isDigit_not_sep (natDecimal_all_digit n c hc)

theorem natDecimal_foldl (n : Nat) :
    ∀ acc, (natDecimal n).foldl digitStep acc = acc * 10 ^ (natDecimal n).length + n := by
  induction n using Nat.strong_induction_on with
  | _ n ih =>
    intro acc
    by_cases h : n < 10
    · rw [natDecimal_low n h]
      simp only [List.foldl_cons, List.foldl_nil, List.length_singleton, pow_one]
      rw [digitStep, digitChar_toNat n h]
      omega
    · rw [natDecimal_high n (by omega)]
      rw [List.foldl_append, ih (n / 10) (Nat.div_lt_self (by omega) (by omega)) acc]
      simp only [List.foldl_cons, List.foldl_nil, List.length_append, List.length_singleton]
      rw [digitStep, digitChar_toNat (n % 10) (Nat.mod_lt _ (by omega))]
      rw [pow_succ]
      have hmul : acc * (10 ^ (natDecimal (n / 10)).length * 10)
          = acc * 10 ^ (natDecimal (n / 10)).length * 10 := by ring
      rw [hmul]
      have hdm : 10 * (n / 10) + n % 10 = n := Nat.div_add_mod n 10
      have hlt : n % 10 < 10 := Nat.mod_lt _ (by omega)
      omega

/-! ### Lemmas about the scanners -/

theorem scanNat_digits (ds : List Char) (hd : ∀ c ∈ ds, c.isDigit = true) :
    ∀ acc rest, notDigitStart rest = true →
      scanNat acc (ds ++ rest) = (ds.foldl digitStep acc, rest) := by
  induction ds with
  | nil =>
    intro acc rest hr
    cases rest with
    | nil => rfl
    | cons c cs =>
      have : c.isDigit = false := by
        have := hr
        rw [notDigitStart] at this
        simpa using this
      simp [scanNat, this]
  | cons c cs ih =>
    intro acc rest hr
    have hc : c.isDigit = true := hd c (List.mem_cons_self c cs)
    simp only [List.cons_append, scanNat, hc, if_true]
    exact ih (fun x hx => hd x (List.mem_cons_of_mem c hx)) _ rest hr

theorem isDigit_ne_dash {c : Char} (h : c.isDigit = true) : c ≠ '-' := by
  intro he; subst he; revert h; decide

theorem isDigit_ne_plus {c : Char} (h : c.isDigit = true) : c ≠ '+' := by
  intro he; subst he; revert h; decide

theorem scanIntD_natDecimal (n : Nat) (rest : List Char) (hr : notDigitStart rest = true) :
    scanIntD (natDecimal n ++ rest) = some ((n : Int), rest) := by
  obtain ⟨c, cs, hcons⟩ : ∃ c cs, natDecimal n = c :: cs := by
    cases h : natDecimal n with
    | nil => exact absurd h (natDecimal_ne_nil n)
    | cons c cs => exact ⟨c, cs, rfl⟩
  have hc : c.isDigit = true := by
    apply natDecimal_all_digit n
    rw [hcons]; exact List.mem_cons_self c cs
  rw [hcons]
  simp only [List.cons_append, scanIntD, if_neg (isDigit_ne_dash hc),
    if_neg (isDigit_ne_plus hc), scanNatStrict, hc, if_true]
  have hall : ∀ x ∈ c :: cs, x.isDigit = true := by
    rw [← hcons]; exact natDecimal_all_digit n
  have hscan := scanNat_digits (c :: cs) hall 0 rest hr
  rw [← List.cons_append, hscan]
  have hval : (c :: cs).foldl digitStep 0 = n := by
    have := natDecimal_foldl n 0
    rw [hcons] at this
    simpa using this
  rw [hval]

theorem getFileDescriptorPair_decimal (r w : Nat) (t : List Char)
    (ht : notDigitStart t = true) :
    getFileDescriptorPair (natDecimal r ++ ',' :: (natDecimal w ++ t)) =
      some ((r : Int), (w : Int)) := by
  rw [getFileDescriptorPair,
    scanIntD_natDecimal r (',' :: (natDecimal w ++ t)) (by rw [notDigitStart]; decide)]
  simp only
  rw [scanIntD_natDecimal w t ht]

theorem applyFileDescriptorPair_decimal (r w : Nat) (t : List Char)
    (ht : notDigitStart t = true) (config : JConfig) :
    applyFileDescriptorPair (natDecimal r ++ ',' :: (natDecimal w ++ t)) config =
      some { config with
             read_fd := (r : Int),
             write_fd := (w : Int),
             mode := JMode.kModeFileDescriptors } := by
  rw [applyFileDescriptorPair, getFileDescriptorPair_decimal r w t ht]
  simp only
  rw [if_neg (by omega)]

/-! ### Lemmas about prefixes and tokenization -/

theorem getPrefixedValue_append (p t : List Char) :
    getPrefixedValue (p ++ t) p = some t := by
  induction p with
  | nil => simp [getPrefixedValue]
  | cons c cs ih => simp [getPrefixedValue, ih]

theorem splitArgsAux_word (ds : List Char) (h : noSep ds = true) :
    ∀ rest acc, splitArgsAux (ds ++ rest) acc = splitArgsAux rest (ds.reverse ++ acc) := by
  induction ds with
  | nil => intro rest acc; simp [splitArgsAux]
  | cons c cs ih =>
    intro rest acc
    rw [noSep, List.all_cons, Bool.and_eq_true] at h
    have hc : isSepChar c = false := by
      have := h.1
      simpa using this
    have hcs : noSep cs = true := h.2
    simp only [List.cons_append, splitArgsAux, hc, Bool.false_eq_true, if_false, List.append_eq]
    rw [ih hcs rest (c :: acc)]
    simp

theorem splitArgsAux_sep (c : Char) (hc : isSepChar c = true) (rest acc : List Char) :
    splitArgsAux (c :: rest) acc =
      if acc.isEmpty then splitArgsAux rest [] else acc.reverse :: splitArgsAux rest [] := by
  simp [splitArgsAux, hc]

/-- A non-empty separator-free word followed by a space starts a token. -/
theorem splitArgs_word_space (w rest : List Char) (hw : noSep w = true) (hne : w ≠ []) :
    splitArgsAux (w ++ ' ' :: rest) [] = w :: splitArgsAux rest [] := by
  rw [splitArgsAux_word w hw (' ' :: rest) [], List.append_nil,
    splitArgsAux_sep ' ' (by decide) rest w.reverse]
  rw [if_neg (by simpa using hne)]
  simp

/-- A trailing non-empty separator-free word is the final token. -/
theorem splitArgs_word_end (w : List Char) (hw : noSep w = true) (hne : w ≠ []) :
    splitArgsAux w [] = [w] := by
  have := splitArgsAux_word w hw [] []
  rw [List.append_nil] at this
  rw [this, splitArgsAux, List.append_nil]
  rw [if_neg (by simpa using hne)]
  simp

theorem noSep_append (a b : List Char) (ha : noSep a = true) (hb : noSep b = true) :
    noSep (a ++ b) = true := by
  rw [noSep, List.all_append]
  rw [noSep] at ha hb
  simp [ha, hb]

/-! ### Lemmas for the pool/parser/client round trip -/

theorem jobserverAuthFlag_expand :
    jobserverAuthFlag = '-' :: '-' :: (("jobserver-auth=").toList) := rfl

theorem jobserverAuthFlag_full :
    jobserverAuthFlag =
      ['-', '-', 'j', 'o', 'b', 's', 'e', 'r', 'v', 'e', 'r', '-', 'a', 'u', 't', 'h', '='] := rfl

theorem jobserverFdsFlag_expand :
    jobserverFdsFlag = '-' :: '-' :: (("jobserver-fds=").toList) := rfl

/-- A word of the form `-j<suffix>` matches neither option prefix. -/
theorem getPrefixedValue_dashj_auth (t : List Char) :
    getPrefixedValue ('-' :: 'j' :: t) jobserverAuthFlag = none := by
  rw [jobserverAuthFlag_expand]
  simp [getPrefixedValue]

theorem getPrefixedValue_dashj_fds (t : List Char) :
    getPrefixedValue ('-' :: 'j' :: t) jobserverFdsFlag = none := by
  rw [jobserverFdsFlag_expand]
  simp [getPrefixedValue]

/-- A `--jobserver-fds=` word does not match the auth prefix. -/
theorem getPrefixedValue_fds_auth (x : List Char) :
    getPrefixedValue (jobserverFdsFlag ++ x) jobserverAuthFlag = none := by
  have e : jobserverFdsFlag ++ x =
      '-' :: '-' :: 'j' :: 'o' :: 'b' :: 's' :: 'e' :: 'r' :: 'v' :: 'e' :: 'r' :: '-' :: 'f'
        :: ('d' :: 's' :: '=' :: x) := rfl
  rw [e, jobserverAuthFlag_full]
  simp [getPrefixedValue]

/-- A `fifo:<path>` value is not a descriptor pair. -/
theorem getFileDescriptorPair_fifo (x : List Char) :
    getFileDescriptorPair (("fifo:").toList ++ x) = none := by
  have e : ("fifo:").toList ++ x = 'f' :: ('i' :: 'f' :: 'o' :: ':' :: x) := rfl
  rw [getFileDescriptorPair, e]
  simp [scanIntD, scanNatStrict]

theorem applyFileDescriptorPair_decimal_nil (r w : Nat) (config : JConfig) :
    applyFileDescriptorPair (natDecimal r ++ ',' :: natDecimal w) config =
      some { config with
             read_fd := (r : Int),
             write_fd := (w : Int),
             mode := JMode.kModeFileDescriptors } := by
  have h := applyFileDescriptorPair_decimal r w [] (by rfl) config
  simpa using h

/-- Tokenization of a two-word MAKEFLAGS fragment with a leading
space. -/
theorem splitArgs_two (w1 w2 : List Char) (h1 : noSep w1 = true) (h2 : noSep w2 = true)
    (n1 : w1 ≠ []) (n2 : w2 ≠ []) :
    splitArgsAux (' ' :: (w1 ++ ' ' :: w2)) [] = [w1, w2] := by
  rw [splitArgsAux_sep ' ' (by decide), if_pos (by simp)]
  rw [splitArgs_word_space w1 _ h1 n1, splitArgs_word_end w2 h2 n2]

/-- Tokenization of a three-word MAKEFLAGS fragment with a leading
space. -/
theorem splitArgs_three (w1 w2 w3 : List Char)
    (h1 : noSep w1 = true) (h2 : noSep w2 = true) (h3 : noSep w3 = true)
    (n1 : w1 ≠ []) (n2 : w2 ≠ []) (n3 : w3 ≠ []) :
    splitArgsAux (' ' :: (w1 ++ ' ' :: (w2 ++ ' ' :: w3))) [] = [w1, w2, w3] := by
  rw [splitArgsAux_sep ' ' (by decide), if_pos (by simp)]
  rw [splitArgs_word_space w1 _ h1 n1, splitArgs_word_space w2 _ h2 n2,
    splitArgs_word_end w3 h3 n3]

/-! ### Lemmas about draining a client -/

theorem acquireList_empty (k : Nat) :
    acquireList ⟨false, []⟩ k = List.replicate k Slot.invalid := by
  induction k with
  | zero => rfl
  | succ k ih =>
    rw [acquireList]
    simp only [tryAcquire, Bool.false_eq_true, if_false]
    rw [ih, List.replicate_succ]

theorem acquireList_bytes (bs : List UInt8) :
    ∀ k, acquireList ⟨false, bs⟩ (bs.length + k) =
      bs.map Slot.explicit ++ List.replicate k Slot.invalid := by
  induction bs with
  | nil =>
    intro k
    simpa using acquireList_empty k
  | cons b rest ih =>
    intro k
    have hlen : (b :: rest).length + k = (rest.length + k) + 1 := by
      simp [List.length_cons]; omega
    rw [hlen, acquireList]
    simp only [tryAcquire, Bool.false_eq_true, if_false]
    rw [ih k]
    simp

/-- A freshly created client over `m` buffered token bytes yields the
implicit slot, then the `m` explicit tokens, then only invalid slots. -/
theorem acquireList_full (m k : Nat) :
    acquireList ⟨true, List.replicate m plusByte⟩ ((m + 1) + k) =
      Slot.implicit ::
        (List.replicate m (Slot.explicit plusByte) ++ List.replicate k Slot.invalid) := by
  have h1 : (m + 1) + k = (m + k) + 1 := by omega
  rw [h1, acquireList]
  simp only [tryAcquire, if_true]
  have h2 := acquireList_bytes (List.replicate m plusByte) k
  rw [List.length_replicate] at h2
  simp only [List.map_replicate] at h2
  rw [h2]

/-! ### Claim C6: parser last-wins -/

/-- C6: for every input string, each whitespace-separated word matching a
recognized option overrides the configuration produced by earlier
recognized words (the mode, and the payload fields carried by the word,
depend only on the word itself), unrecognized words are ignored, and the
input `--jobserver-auth=10,42 --jobserver-fds=12,44
--jobserver-auth=fifo:/tmp/fifo` parses to Mode=Fifo with path
`/tmp/fifo`. -/
theorem c6_parser_last_wins :
    parseMakeFlagsValue
        (("--jobserver-auth=10,42 --jobserver-fds=12,44 --jobserver-auth=fifo:/tmp/fifo").toList) =
      .ok ⟨JMode.kModePosixFifo, 12, 44, ("/tmp/fifo").toList⟩
    ∧ (∀ config arg, getPrefixedValue arg jobserverAuthFlag = none →
        getPrefixedValue arg jobserverFdsFlag = none →
        stepWord config arg = .ok config)
    ∧ (∀ c1 c2 r1 r2 arg,
        ((getPrefixedValue arg jobserverAuthFlag).isSome = true ∨
         (getPrefixedValue arg jobserverFdsFlag).isSome = true) →
        stepWord c1 arg = .ok r1 → stepWord c2 arg = .ok r2 →
        r1.mode = r2.mode
        ∧ (r1.mode = JMode.kModePosixFifo ∨ r1.mode = JMode.kModeWin32Semaphore →
            r1.path = r2.path)
        ∧ (r1.mode = JMode.kModeFileDescriptors ∨ r1.mode = JMode.kModeNone →
            r1.read_fd = r2.read_fd ∧ r1.write_fd = r2.write_fd)) := by
  refine ⟨by rfl, ?_, ?_⟩
  · intro config arg h1 h2
    simp only [stepWord, h1, h2]
  · intro c1 c2 r1 r2 arg hrec h1 h2
    cases hauth : getPrefixedValue arg jobserverAuthFlag with
    | some value =>
      simp only [stepWord, hauth] at h1 h2
      cases hfdp : getFileDescriptorPair value with
      | some pq =>
        obtain ⟨p, q⟩ := pq
        simp only [applyFileDescriptorPair, hfdp, Except.ok.injEq] at h1 h2
        subst h1; subst h2
        refine ⟨rfl, ?_, ?_⟩
        · intro hmode
          rcases hmode with hmode | hmode <;>
            · simp only at hmode
              split at hmode <;> simp at hmode
        · intro _
          exact ⟨rfl, rfl⟩
      | none =>
        simp only [applyFileDescriptorPair, hfdp] at h1 h2
        cases hff : getPrefixedValue value (("fifo:").toList) with
        | some fp =>
          simp only [hff, Except.ok.injEq] at h1 h2
          subst h1; subst h2
          exact ⟨rfl, fun _ => rfl, fun h => by simp at h⟩
        | none =>
          simp only [hff, Except.ok.injEq] at h1 h2
          subst h1; subst h2
          exact ⟨rfl, fun _ => rfl, fun h => by simp at h⟩
    | none =>
      rcases hrec with hrec | hrec
      · rw [hauth] at hrec; simp at hrec
      · cases hfds : getPrefixedValue arg jobserverFdsFlag with
        | none => rw [hfds] at hrec; simp at hrec
        | some value =>
          simp only [stepWord, hauth, hfds] at h1 h2
          cases hfdp : getFileDescriptorPair value with
          | some pq =>
            obtain ⟨p, q⟩ := pq
            simp only [applyFileDescriptorPair, hfdp, Except.ok.injEq] at h1 h2
            subst h1; subst h2
            exact ⟨rfl, fun h => by simp at h, fun _ => ⟨rfl, rfl⟩⟩
          | none =>
            simp only [applyFileDescriptorPair, hfdp] at h1
            exact absurd h1 (by simp)

/-- Witness for C6: an unrecognized word is ignored, and the mode
produced by a recognized word does not depend on the earlier
configuration. -/
theorem c6_witness :
    stepWord JConfig.default (("-k").toList) = .ok JConfig.default
    ∧ (⟨JMode.kModePosixFifo, -1, -1, ("/a").toList⟩ : JConfig).mode =
        (⟨JMode.kModePosixFifo, 10, 42, ("/a").toList⟩ : JConfig).mode := by
  constructor
  · exact c6_parser_last_wins.2.1 JConfig.default (("-k").toList) (by rfl) (by rfl)
  · have h := c6_parser_last_wins.2.2 JConfig.default ⟨JMode.kModeNone, 10, 42, []⟩
      ⟨JMode.kModePosixFifo, -1, -1, ("/a").toList⟩
      ⟨JMode.kModePosixFifo, 10, 42, ("/a").toList⟩
      (("--jobserver-auth=fifo:/a").toList)
      (Or.inl (by rfl)) (by rfl) (by rfl)
    exact h.1

/-! ### Claim C10: trailing garbage after a descriptor pair -/

/-- C10: a word `--jobserver-auth=<R>,<W><t>` whose trailing part `t`
does not begin with a digit (so `R` and `W` are the maximal leading
integers) parses to Mode=FileDescriptors with the leading pair, ignoring
the trailing characters, rather than as a Win32 semaphore name; and fed
as the entire MAKEFLAGS value it yields that configuration. -/
theorem c10_trailing_garbage (r w : Nat) (t : List Char)
    (ht : notDigitStart t = true) (hsep : noSep t = true) :
    (∀ config,
      stepWord config (jobserverAuthFlag ++ (natDecimal r ++ ',' :: (natDecimal w ++ t))) =
        .ok { config with
              read_fd := (r : Int),
              write_fd := (w : Int),
              mode := JMode.kModeFileDescriptors })
    ∧ parseMakeFlagsValue (jobserverAuthFlag ++ (natDecimal r ++ ',' :: (natDecimal w ++ t))) =
        .ok { JConfig.default with
              read_fd := (r : Int),
              write_fd := (w : Int),
              mode := JMode.kModeFileDescriptors } := by
  have hstep : ∀ config : JConfig,
      stepWord config (jobserverAuthFlag ++ (natDecimal r ++ ',' :: (natDecimal w ++ t))) =
        .ok { config with
              read_fd := (r : Int),
              write_fd := (w : Int),
              mode := JMode.kModeFileDescriptors } := by
    intro config
    simp only [stepWord, getPrefixedValue_append, applyFileDescriptorPair_decimal r w t ht]
  refine ⟨hstep, ?_⟩
  have hnosep : noSep (jobserverAuthFlag ++ (natDecimal r ++ ',' :: (natDecimal w ++ t))) = true := by
    refine noSep_append _ _ (by decide) ?_
    refine noSep_append _ _ (natDecimal_noSep r) ?_
    have : (',' :: (natDecimal w ++ t)) = [','] ++ (natDecimal w ++ t) := rfl
    rw [this]
    exact noSep_append _ _ (by decide) (noSep_append _ _ (natDecimal_noSep w) hsep)
  have hne : (jobserverAuthFlag ++ (natDecimal r ++ ',' :: (natDecimal w ++ t))) ≠ [] := by
    simp [jobserverAuthFlag]
  have hsplit := splitArgs_word_end _ hnosep hne
  have hcons : jobserverAuthFlag ++ (natDecimal r ++ ',' :: (natDecimal w ++ t)) =
      '-' :: (("-jobserver-auth=").toList ++ (natDecimal r ++ ',' :: (natDecimal w ++ t))) := rfl
  rw [hcons] at hsplit ⊢
  simp only [parseMakeFlagsValue, splitArgs, hsplit]
  rw [if_neg (by simp)]
  have h2 := hstep JConfig.default
  rw [hcons] at h2
  simp only [parseLoop, h2]

/-- Witness for C10 at the concrete word `--jobserver-auth=3,4abc`. -/
theorem c10_witness :
    parseMakeFlagsValue (("--jobserver-auth=3,4abc").toList) =
      .ok { JConfig.default with
            read_fd := 3,
            write_fd := 4,
            mode := JMode.kModeFileDescriptors } := by
  have h := (c10_trailing_garbage 3 4 (("abc").toList) (by decide) (by decide)).2
  have e : jobserverAuthFlag ++ (natDecimal 3 ++ ',' :: (natDecimal 4 ++ ("abc").toList)) =
      ("--jobserver-auth=3,4abc").toList := by decide
  rw [e] at h
  exact h

/-! ### Claim C7: TryAcquire semantics -/

theorem firstNonEintr_skip (k : Nat) (o : ReadResult) (rest : List ReadResult)
    (ho : o ≠ ReadResult.eintr) :
    firstNonEintr (List.replicate k ReadResult.eintr ++ o :: rest) = some (o, rest) := by
  induction k with
  | zero =>
    cases o <;> simp [firstNonEintr] <;> exact absurd rfl ho
  | succ k ih =>
    rw [List.replicate_succ, List.cons_append, firstNonEintr]
    exact ih

/-- C7: TryAcquire never blocks; if the client still holds its implicit
slot the call consumes it and returns an Implicit slot without any I/O;
otherwise it performs one non-blocking single-byte read, retrying
exactly on EINTR, returning Explicit(byte) exactly when the read
returns 1 byte and an Invalid slot in every other case (EAGAIN, 0
bytes, or error). -/
theorem c7_try_acquire_semantics :
    (∀ tr, tryAcquireTrace true tr = some (Slot.implicit, false, tr))
    ∧ (∀ k (b : UInt8) rest,
        tryAcquireTrace false
            (List.replicate k ReadResult.eintr ++ ReadResult.ok b :: rest) =
          some (Slot.explicit b, false, rest))
    ∧ (∀ k o rest, o ≠ ReadResult.eintr → (∀ b, o ≠ ReadResult.ok b) →
        tryAcquireTrace false (List.replicate k ReadResult.eintr ++ o :: rest) =
          some (Slot.invalid, false, rest)) := by
  refine ⟨fun tr => rfl, ?_, ?_⟩
  · intro k b rest
    rw [tryAcquireTrace]
    simp only [Bool.false_eq_true, if_false]
    rw [firstNonEintr_skip k (ReadResult.ok b) rest (by simp)]
  · intro k o rest ho hob
    rw [tryAcquireTrace]
    simp only [Bool.false_eq_true, if_false]
    rw [firstNonEintr_skip k o rest ho]
    cases o with
    | ok b => exact absurd rfl (hob b)
    | eof => rfl
    | eintr => exact absurd rfl ho
    | eagain => rfl
    | fail => rfl

/-- Witness for C7 at concrete traces. -/
theorem c7_witness :
    tryAcquireTrace true [ReadResult.eagain] =
        some (Slot.implicit, false, [ReadResult.eagain])
    ∧ tryAcquireTrace false [ReadResult.eintr, ReadResult.ok 43] =
        some (Slot.explicit 43, false, [])
    ∧ tryAcquireTrace false [ReadResult.eintr, ReadResult.eagain] =
        some (Slot.invalid, false, []) := by
  refine ⟨c7_try_acquire_semantics.1 _, ?_, ?_⟩
  · have h := c7_try_acquire_semantics.2.1 1 43 []
    simpa using h
  · have h := c7_try_acquire_semantics.2.2 1 ReadResult.eagain [] (by simp) (by simp)
    simpa using h

/-! ### Claim C8: Release semantics and implicit-slot uniqueness -/

theorem firstNonEintrW_skip (k : Nat) (o : WriteResult) (rest : List WriteResult)
    (ho : o ≠ WriteResult.eintr) :
    firstNonEintrW (List.replicate k WriteResult.eintr ++ o :: rest) = some (o, rest) := by
  induction k with
  | zero =>
    cases o <;> simp [firstNonEintrW] <;> exact absurd rfl ho
  | succ k ih =>
    rw [List.replicate_succ, List.cons_append, firstNonEintrW]
    exact ih

/-- C8: Release of an Invalid slot is a no-op; Release of an Implicit
slot reclaims it locally, and in any legal interaction sequence the
client's flag is clear at that moment (at most one Implicit slot exists
per client at any instant); Release of Explicit(b) writes the byte b to
the write endpoint, retrying on EINTR, and write errors are swallowed
without changing client state. -/
theorem c8_release_semantics :
    (∀ h tr, releaseTrace h Slot.invalid tr = some (h, tr, []))
    ∧ (∀ h tr, releaseTrace h Slot.implicit tr = some (true, tr, []))
    ∧ (∀ (h : Bool) (b : UInt8) k rest,
        releaseTrace h (Slot.explicit b)
            (List.replicate k WriteResult.eintr ++ WriteResult.ok :: rest) =
          some (h, rest, [b]))
    ∧ (∀ (h : Bool) (b : UInt8) k rest,
        releaseTrace h (Slot.explicit b)
            (List.replicate k WriteResult.eintr ++ WriteResult.fail :: rest) =
          some (h, rest, []))
    ∧ (∀ s : Bool × Nat, Relation.ReflTransGen ClientStep (true, 0) s →
        s.2 + (if s.1 then 1 else 0) = 1)
    ∧ (∀ s : Bool × Nat, Relation.ReflTransGen ClientStep (true, 0) s →
        1 ≤ s.2 → s.1 = false) := by
  have hinv : ∀ s : Bool × Nat, Relation.ReflTransGen ClientStep (true, 0) s →
      s.2 + (if s.1 then 1 else 0) = 1 := by
    intro s hs
    induction hs with
    | refl => simp
    | tail hab hstep ih =>
      cases hstep with
      | acquire h k tr s2 h2 rest heq =>
        cases h with
        | true =>
          rw [tryAcquireTrace] at heq
          simp only [if_true, Option.some.injEq, Prod.mk.injEq] at heq
          obtain ⟨hs2, hh2, -⟩ := heq
          subst hs2; subst hh2
          simp at ih ⊢
          omega
        | false =>
          obtain ⟨hne, hh2⟩ : s2 ≠ Slot.implicit ∧ h2 = false := by
            rw [tryAcquireTrace] at heq
            simp only [Bool.false_eq_true, if_false] at heq
            cases hfne : firstNonEintr tr with
            | none => rw [hfne] at heq; exact absurd heq (by simp)
            | some pr =>
              obtain ⟨o, rest2⟩ := pr
              rw [hfne] at heq
              have hcase : ∃ X, (some (X, false, rest2) :
                    Option (Slot × Bool × List ReadResult)) = some (s2, h2, rest)
                  ∧ X ≠ Slot.implicit := by
                cases o with
                | ok b => exact ⟨Slot.explicit b, heq, by simp⟩
                | eof => exact ⟨Slot.invalid, heq, by simp⟩
                | eintr => exact ⟨Slot.invalid, heq, by simp⟩
                | eagain => exact ⟨Slot.invalid, heq, by simp⟩
                | fail => exact ⟨Slot.invalid, heq, by simp⟩
              obtain ⟨X, hXeq, hXne⟩ := hcase
              simp only [Option.some.injEq, Prod.mk.injEq] at hXeq
              obtain ⟨h1, h2', -⟩ := hXeq
              subst h1
              exact ⟨hXne, h2'.symm⟩
          subst hh2
          simp only [if_neg hne]
          simp at ih ⊢
          omega
      | release h k s2 tr h2 rest bs hleg heq =>
        cases s2 with
        | invalid =>
          rw [releaseTrace] at heq
          simp only [Option.some.injEq, Prod.mk.injEq] at heq
          obtain ⟨hh2, -, -⟩ := heq
          subst hh2
          simp at ih ⊢
          omega
        | implicit =>
          rw [releaseTrace] at heq
          simp only [Option.some.injEq, Prod.mk.injEq] at heq
          obtain ⟨hh2, -, -⟩ := heq
          subst hh2
          have hk := hleg rfl
          simp at ih ⊢
          cases h with
          | true => simp at ih; omega
          | false => simp at ih; omega
        | explicit bb =>
          have hh2 : h2 = h := by
            rw [releaseTrace] at heq
            cases hfne : firstNonEintrW tr with
            | none => rw [hfne] at heq; exact absurd heq (by simp)
            | some pr =>
              obtain ⟨o, rest2⟩ := pr
              rw [hfne] at heq
              have hcase : ∃ bs2, (some (h, rest2, bs2) :
                    Option (Bool × List WriteResult × List UInt8)) = some (h2, rest, bs) := by
                cases o with
                | ok => exact ⟨[bb], heq⟩
                | eintr => exact ⟨[], heq⟩
                | fail => exact ⟨[], heq⟩
              obtain ⟨bs2, hXeq⟩ := hcase
              simp only [Option.some.injEq, Prod.mk.injEq] at hXeq
              exact hXeq.1.symm
          subst hh2
          simp only [if_neg (by simp : Slot.explicit bb ≠ Slot.implicit)]
          simp at ih ⊢
          omega
  refine ⟨fun h tr => rfl, fun h tr => rfl, ?_, ?_, hinv, ?_⟩
  · intro h b k rest
    rw [releaseTrace, firstNonEintrW_skip k WriteResult.ok rest (by simp)]
  · intro h b k rest
    rw [releaseTrace, firstNonEintrW_skip k WriteResult.fail rest (by simp)]
  · intro s hs hk
    have := hinv s hs
    cases hb : s.1 with
    | true => rw [hb] at this; simp at this; omega
    | false => rfl

/-- Witness for C8 at concrete inputs: an EINTR-then-success write of an
explicit slot, and the invariant after one acquire of the implicit
slot. -/
theorem c8_witness :
    releaseTrace false (Slot.explicit 43) [WriteResult.eintr, WriteResult.ok] =
        some (false, [], [43])
    ∧ (((false, 1) : Bool × Nat).2 + (if ((false, 1) : Bool × Nat).1 then 1 else 0) = 1) := by
  constructor
  · have h := c8_release_semantics.2.2.1 false 43 1 []
    simpa using h
  · have hstep : ClientStep (true, 0) (false, 1) := by
      have h := ClientStep.acquire true 0 [] Slot.implicit false [] (by rfl)
      simpa using h
    exact c8_release_semantics.2.2.2.2.1 (false, 1) (Relation.ReflTransGen.single hstep)

/-! ### Claim C1: pool / parser / client round trip -/

/-- C1: for every N ≥ 2, a freshly created jobserver Pool of size N
writes exactly N-1 token bytes into its pipe/FIFO and advertises
` -j<N>` at the start of the string returned by GetEnvMakeFlagsValue;
feeding that exact string to ParseMakeFlagsValue yields a Config from
which Client::Create succeeds, and that client's TryAcquire sequence
drains exactly one Implicit slot plus N-1 Explicit slots, after which
every further TryAcquire returns Invalid. Both pool flavours are
covered: the anonymous pipe (kernel-assigned descriptors r and w) and
the FIFO under a separator-free temporary directory. -/
theorem c1_round_trip (n r w pid wfd : Nat) (tmp_dir : List Char)
    (hn : 2 ≤ n) (htmp : noSep tmp_dir = true) :
    (poolCreate n JMode.kModeFileDescriptors r w tmp_dir pid wfd =
        .ok (poolInitWithPipe n r w)
      ∧ (poolInitWithPipe n r w).buffer.length = n - 1
      ∧ (∃ tail, getEnvMakeFlagsValue (poolInitWithPipe n r w) =
          (' ' :: '-' :: 'j' :: natDecimal n) ++ tail)
      ∧ parseMakeFlagsValue (getEnvMakeFlagsValue (poolInitWithPipe n r w)) =
          .ok ⟨JMode.kModeFileDescriptors, (r : Int), (w : Int), []⟩
      ∧ clientCreate ⟨JMode.kModeFileDescriptors, (r : Int), (w : Int), []⟩
            (poolInitWithPipe n r w).os =
          some ⟨true, List.replicate (n - 1) plusByte⟩)
    ∧ (poolCreate n JMode.kModePosixFifo r w tmp_dir pid wfd =
        .ok (poolInitWithFifo n tmp_dir pid wfd)
      ∧ (poolInitWithFifo n tmp_dir pid wfd).buffer.length = n - 1
      ∧ (∃ tail, getEnvMakeFlagsValue (poolInitWithFifo n tmp_dir pid wfd) =
          (' ' :: '-' :: 'j' :: natDecimal n) ++ tail)
      ∧ parseMakeFlagsValue (getEnvMakeFlagsValue (poolInitWithFifo n tmp_dir pid wfd)) =
          .ok ⟨JMode.kModePosixFifo, -1, -1, (poolInitWithFifo n tmp_dir pid wfd).fifo⟩
      ∧ clientCreate ⟨JMode.kModePosixFifo, -1, -1, (poolInitWithFifo n tmp_dir pid wfd).fifo⟩
            (poolInitWithFifo n tmp_dir pid wfd).os =
          some ⟨true, List.replicate (n - 1) plusByte⟩)
    ∧ (∀ k, acquireList ⟨true, List.replicate (n - 1) plusByte⟩ (n + k) =
        Slot.implicit ::
          (List.replicate (n - 1) (Slot.explicit plusByte) ++ List.replicate k Slot.invalid)) := by
  have hdrain : ∀ k, acquireList ⟨true, List.replicate (n - 1) plusByte⟩ (n + k) =
      Slot.implicit ::
        (List.replicate (n - 1) (Slot.explicit plusByte) ++ List.replicate k Slot.invalid) := by
    intro k
    have hnk : n + k = ((n - 1) + 1) + k := by omega
    rw [hnk]
    exact acquireList_full (n - 1) k
  have hw1sep : noSep ('-' :: 'j' :: natDecimal n) = true := by
    have e : ('-' :: 'j' :: natDecimal n) = ['-', 'j'] ++ natDecimal n := rfl
    rw [e]
    exact noSep_append _ _ (by decide) (natDecimal_noSep n)
  have hpairsep : noSep (natDecimal r ++ ',' :: natDecimal w) = true := by
    refine noSep_append _ _ (natDecimal_noSep r) ?_
    have e : (',' :: natDecimal w) = [','] ++ natDecimal w := rfl
    rw [e]
    exact noSep_append _ _ (by decide) (natDecimal_noSep w)
  have hs1 : ∀ cfg : JConfig, stepWord cfg ('-' :: 'j' :: natDecimal n) = .ok cfg := by
    intro cfg
    simp only [stepWord, getPrefixedValue_dashj_auth, getPrefixedValue_dashj_fds]
  refine ⟨?_, ?_, hdrain⟩
  · -- pipe-mode pool
    have henv : getEnvMakeFlagsValue (poolInitWithPipe n r w) =
        ' ' :: (('-' :: 'j' :: natDecimal n) ++ ' ' ::
          ((jobserverFdsFlag ++ (natDecimal r ++ ',' :: natDecimal w)) ++ ' ' ::
            (jobserverAuthFlag ++ (natDecimal r ++ ',' :: natDecimal w)))) := by
      rw [getEnvMakeFlagsValue]
      simp only [poolInitWithPipe]
      rw [if_pos ⟨Int.ofNat_nonneg r, Int.ofNat_nonneg w⟩]
      have e1 : (" -j").toList = ' ' :: '-' :: 'j' :: ([] : List Char) := rfl
      have e2 : (" --jobserver-fds=").toList = ' ' :: jobserverFdsFlag := rfl
      have e3 : (" --jobserver-auth=").toList = ' ' :: jobserverAuthFlag := rfl
      have e4 : ((r : Int)).toNat = r := Int.toNat_ofNat r
      have e5 : ((w : Int)).toNat = w := Int.toNat_ofNat w
      rw [e1, e2, e3, e4, e5]
      simp [List.append_assoc]
    have hsplit := splitArgs_three ('-' :: 'j' :: natDecimal n)
        (jobserverFdsFlag ++ (natDecimal r ++ ',' :: natDecimal w))
        (jobserverAuthFlag ++ (natDecimal r ++ ',' :: natDecimal w))
        hw1sep
        (noSep_append _ _ (by decide) hpairsep)
        (noSep_append _ _ (by decide) hpairsep)
        (by simp)
        (by rw [jobserverFdsFlag_expand]; simp)
        (by rw [jobserverAuthFlag_expand]; simp)
    have hs2 : ∀ cfg : JConfig,
        stepWord cfg (jobserverFdsFlag ++ (natDecimal r ++ ',' :: natDecimal w)) =
          .ok { cfg with
                read_fd := (r : Int),
                write_fd := (w : Int),
                mode := JMode.kModeFileDescriptors } := by
      intro cfg
      simp only [stepWord, getPrefixedValue_fds_auth, getPrefixedValue_append,
        applyFileDescriptorPair_decimal_nil]
    have hs3 : ∀ cfg : JConfig,
        stepWord cfg (jobserverAuthFlag ++ (natDecimal r ++ ',' :: natDecimal w)) =
          .ok { cfg with
                read_fd := (r : Int),
                write_fd := (w : Int),
                mode := JMode.kModeFileDescriptors } := by
      intro cfg
      simp only [stepWord, getPrefixedValue_append, applyFileDescriptorPair_decimal_nil]
    refine ⟨?_, ?_, ?_, ?_, ?_⟩
    · rw [poolCreate, if_neg (by omega), if_pos rfl]
    · simp [poolInitWithPipe]
    · refine ⟨' ' :: ((jobserverFdsFlag ++ (natDecimal r ++ ',' :: natDecimal w)) ++ ' ' ::
        (jobserverAuthFlag ++ (natDecimal r ++ ',' :: natDecimal w))), ?_⟩
      rw [henv]
      simp
    · rw [henv]
      simp only [parseMakeFlagsValue, splitArgs, hsplit]
      rw [if_neg (by simp)]
      simp only [parseLoop, hs1, hs2, hs3]
      rfl
    · simp [clientCreate, isFifoDescriptor, PoolState.os, poolInitWithPipe]
  · -- fifo-mode pool
    have hlit : ("/NinjaFIFO").toList = '/' :: ("NinjaFIFO").toList := rfl
    have hne2 : tmp_dir ++ ("/NinjaFIFO").toList ++ natDecimal pid ≠ [] := by
      rw [hlit]
      simp
    have hfe : (tmp_dir ++ ("/NinjaFIFO").toList ++ natDecimal pid).isEmpty = false := by
      cases hcase : tmp_dir ++ ("/NinjaFIFO").toList ++ natDecimal pid with
      | nil => exact absurd hcase hne2
      | cons a as => rfl
    have hpathsep : noSep (tmp_dir ++ ("/NinjaFIFO").toList ++ natDecimal pid) = true :=
      noSep_append _ _ (noSep_append _ _ htmp (by decide)) (natDecimal_noSep pid)
    have hWAsep : noSep (jobserverAuthFlag ++ (("fifo:").toList ++
        (tmp_dir ++ ("/NinjaFIFO").toList ++ natDecimal pid))) = true :=
      noSep_append _ _ (by decide) (noSep_append _ _ (by decide) hpathsep)
    have henvF : getEnvMakeFlagsValue (poolInitWithFifo n tmp_dir pid wfd) =
        ' ' :: (('-' :: 'j' :: natDecimal n) ++ ' ' ::
          (jobserverAuthFlag ++ (("fifo:").toList ++
            (tmp_dir ++ ("/NinjaFIFO").toList ++ natDecimal pid)))) := by
      rw [getEnvMakeFlagsValue]
      simp only [poolInitWithFifo]
      rw [if_neg (by intro hcon; exact absurd hcon.1 (by decide))]
      simp only [hfe, Bool.false_eq_true, if_false]
      have e1 : (" -j").toList = ' ' :: '-' :: 'j' :: ([] : List Char) := rfl
      have e6 : (" --jobserver-auth=fifo:").toList =
          ' ' :: (jobserverAuthFlag ++ ("fifo:").toList) := rfl
      rw [e1, e6]
      simp [List.append_assoc]
    have hsplitF := splitArgs_two ('-' :: 'j' :: natDecimal n)
        (jobserverAuthFlag ++ (("fifo:").toList ++
          (tmp_dir ++ ("/NinjaFIFO").toList ++ natDecimal pid)))
        hw1sep hWAsep (by simp) (by rw [jobserverAuthFlag_expand]; simp)
    have hsA : ∀ cfg : JConfig,
        stepWord cfg (jobserverAuthFlag ++ (("fifo:").toList ++
            (tmp_dir ++ ("/NinjaFIFO").toList ++ natDecimal pid))) =
          .ok { cfg with
                mode := JMode.kModePosixFifo,
                path := tmp_dir ++ ("/NinjaFIFO").toList ++ natDecimal pid } := by
      intro cfg
      simp only [stepWord, getPrefixedValue_append, applyFileDescriptorPair,
        getFileDescriptorPair_fifo]
    refine ⟨?_, ?_, ?_, ?_, ?_⟩
    · rw [poolCreate, if_neg (by omega), if_neg (by decide), if_pos rfl]
    · simp [poolInitWithFifo]
    · refine ⟨' ' :: (jobserverAuthFlag ++ (("fifo:").toList ++
        (tmp_dir ++ ("/NinjaFIFO").toList ++ natDecimal pid))), ?_⟩
      rw [henvF]
      simp
    · rw [henvF]
      simp only [parseMakeFlagsValue, splitArgs, hsplitF]
      rw [if_neg (by simp)]
      simp only [parseLoop, hs1, hsA]
      rfl
    · simp [clientCreate, PoolState.os, poolInitWithFifo, hfe]

/-- Witness for C1 at N = 3 with pipe descriptors 3 and 4 and a FIFO
under /tmp for process id 42. -/
theorem c1_witness :
    parseMakeFlagsValue (getEnvMakeFlagsValue (poolInitWithPipe 3 3 4)) =
        .ok ⟨JMode.kModeFileDescriptors, 3, 4, []⟩
    ∧ acquireList ⟨true, List.replicate 2 plusByte⟩ 4 =
        Slot.implicit ::
          (List.replicate 2 (Slot.explicit plusByte) ++ List.replicate 1 Slot.invalid) := by
  have h := c1_round_trip 3 3 4 42 7 (("/tmp").toList) (by omega) (by decide)
  refine ⟨h.1.2.2.2.1, ?_⟩
  have h2 := h.2.2 1
  simpa using h2

/-! ### Claim C2: status-table display stability -/

theorem ptrLess_asymm {a b : Option CommandValue} (h : ptrLess a b) : ¬ ptrLess b a := by
  unfold ptrLess keyLt at *
  omega

theorem ptrLess_trans {a b c : Option CommandValue} (h1 : ptrLess a b) (h2 : ptrLess b c) :
    ptrLess a c := by
  unfold ptrLess keyLt at *
  omega

theorem mem_insertDesc {x z : Option CommandValue} :
    ∀ {l}, z ∈ insertDesc x l → z = x ∨ z ∈ l := by
  intro l
  induction l with
  | nil =>
    intro h
    rw [insertDesc] at h
    simpa using h
  | cons y ys ih =>
    intro h
    rw [insertDesc] at h
    split at h
    · rcases List.mem_cons.mp h with h1 | h1
      · exact Or.inl h1
      · exact Or.inr h1
    · rcases List.mem_cons.mp h with h1 | h1
      · exact Or.inr (h1 ▸ List.mem_cons_self y ys)
      · rcases ih h1 with h2 | h2
        · exact Or.inl h2
        · exact Or.inr (List.mem_cons_of_mem y h2)

theorem perm_insertDesc (x : Option CommandValue) :
    ∀ l, (insertDesc x l).Perm (x :: l) := by
  intro l
  induction l with
  | nil => exact List.Perm.refl _
  | cons y ys ih =>
    rw [insertDesc]
    split
    · exact List.Perm.refl _
    · exact List.Perm.trans (List.Perm.cons y ih) (List.Perm.swap x y ys)

theorem pairwise_insertDesc (x : Option CommandValue) :
    ∀ l, l.Pairwise (fun a b => ¬ ptrLess a b) →
      (insertDesc x l).Pairwise (fun a b => ¬ ptrLess a b) := by
  intro l
  induction l with
  | nil =>
    intro _
    simp [insertDesc]
  | cons y ys ih =>
    intro h
    rcases List.pairwise_cons.mp h with ⟨hy, hys⟩
    rw [insertDesc]
    split
    case isTrue hcase =>
      refine List.pairwise_cons.mpr ⟨?_, h⟩
      intro z hz
      rcases List.mem_cons.mp hz with rfl | hz2
      · exact ptrLess_asymm hcase
      · intro hcon
        exact hy z hz2 (ptrLess_trans hcase hcon)
    case isFalse hcase =>
      refine List.pairwise_cons.mpr ⟨?_, ih hys⟩
      intro z hz
      rcases mem_insertDesc hz with rfl | hz2
      · exact hcase
      · exact hy z hz2

theorem pairwise_selectStep (q : List (Option CommandValue)) (cv : CommandValue)
    (h : q.Pairwise (fun a b => ¬ ptrLess a b)) :
    (selectStep q cv).Pairwise (fun a b => ¬ ptrLess a b) := by
  cases q with
  | nil => simpa [selectStep] using h
  | cons top rest =>
    rw [selectStep]
    split
    · exact pairwise_insertDesc _ rest (List.pairwise_cons.mp h).2
    · exact h

theorem pairwise_replicate_none (k : Nat) :
    (List.replicate k (none : Option CommandValue)).Pairwise (fun a b => ¬ ptrLess a b) := by
  induction k with
  | zero => simp
  | succ k ih =>
    rw [List.replicate_succ]
    refine List.pairwise_cons.mpr ⟨?_, ih⟩
    intro z hz
    rw [List.eq_of_mem_replicate hz]
    simp only [ptrLess, keyLt, cvKey]
    omega

theorem pairwise_selectFold :
    ∀ (pending : List CommandValue) (q : List (Option CommandValue)),
      q.Pairwise (fun a b => ¬ ptrLess a b) →
      (pending.foldl selectStep q).Pairwise (fun a b => ¬ ptrLess a b) := by
  intro pending
  induction pending with
  | nil =>
    intro q h
    simpa using h
  | cons c cs ih =>
    intro q h
    rw [List.foldl_cons]
    exact ih _ (pairwise_selectStep q c h)

theorem pairwise_filterMap_id (l : List (Option CommandValue))
    (h : l.Pairwise (fun a b => ¬ ptrLess a b)) :
    (l.filterMap id).Pairwise (fun a b : CommandValue => ¬ ptrLess (some a) (some b)) := by
  induction l with
  | nil => simp
  | cons x xs ih =>
    rcases List.pairwise_cons.mp h with ⟨hx, hxs⟩
    cases x with
    | none =>
      have e : (none :: xs).filterMap (id : Option CommandValue → Option CommandValue) =
          xs.filterMap id := by
        simp [List.filterMap_cons]
      rw [e]
      exact ih hxs
    | some a =>
      have e : ((some a) :: xs).filterMap (id : Option CommandValue → Option CommandValue) =
          a :: xs.filterMap id := by
        simp [List.filterMap_cons]
      rw [e]
      refine List.pairwise_cons.mpr ⟨?_, ih hxs⟩
      intro b hb
      have hmem : some b ∈ xs := by
        rcases List.mem_filterMap.mp hb with ⟨ob, hob, hid⟩
        cases ob with
        | none => exact absurd hid (by simp)
        | some c =>
          have hc : c = b := by simpa using hid
          rw [← hc]
          exact hob
      exact hx _ hmem

theorem not_ptrLess_some (a b : CommandValue) :
    ¬ ptrLess (some b) (some a) ↔
      (a.start_time_ms < b.start_time_ms ∨
        (a.start_time_ms = b.start_time_ms ∧ a.command_id ≤ b.command_id)) := by
  simp only [ptrLess, keyLt, cvKey]
  omega

/-- C2: in the rendered table, for every pair of displayed commands the
one shown higher has a smaller start time, or the same start time and a
lower-or-equal insertion id — so of two pending commands with equal
start times the one inserted first is displayed higher on every update;
and in the bounded max-heap selection, a candidate replaces the top
exactly when the top is null or has a larger start time. -/
theorem c2_table_stability :
    (∀ K pending, (renderedCommands K pending).Pairwise
        (fun a b => a.start_time_ms < b.start_time_ms ∨
          (a.start_time_ms = b.start_time_ms ∧ a.command_id ≤ b.command_id)))
    ∧ (∀ K pending i j (hij : i < j) (hj : j < (renderedCommands K pending).length),
        ((renderedCommands K pending).get ⟨i, Nat.lt_trans hij hj⟩).start_time_ms =
          ((renderedCommands K pending).get ⟨j, hj⟩).start_time_ms →
        ((renderedCommands K pending).get ⟨i, Nat.lt_trans hij hj⟩).command_id ≤
          ((renderedCommands K pending).get ⟨j, hj⟩).command_id)
    ∧ (∀ top rest cv, (top = none ∨ cv.start_time_ms < topStart top) →
        (selectStep (top :: rest) cv).Perm (some cv :: rest))
    ∧ (∀ top rest cv, ¬ (top = none ∨ cv.start_time_ms < topStart top) →
        selectStep (top :: rest) cv = top :: rest) := by
  have hpair : ∀ K pending, (renderedCommands K pending).Pairwise
      (fun a b => a.start_time_ms < b.start_time_ms ∨
        (a.start_time_ms = b.start_time_ms ∧ a.command_id ≤ b.command_id)) := by
    intro K pending
    have h1 := pairwise_selectFold pending (List.replicate K none) (pairwise_replicate_none K)
    have h2 := pairwise_filterMap_id _ h1
    have h3 : (renderedCommands K pending).Pairwise
        (fun a b => ¬ ptrLess (some b) (some a)) := by
      rw [renderedCommands]
      exact List.pairwise_reverse.mpr h2
    exact h3.imp (fun hab => (not_ptrLess_some _ _).mp hab)
  refine ⟨hpair, ?_, ?_, ?_⟩
  · intro K pending i j hij hj heq
    have h := List.pairwise_iff_get.mp (hpair K pending)
      ⟨i, Nat.lt_trans hij hj⟩ ⟨j, hj⟩ hij
    rcases h with h | h
    · exact absurd heq (by omega)
    · exact h.2
  · intro top rest cv hcond
    rw [selectStep, if_pos hcond]
    exact perm_insertDesc (some cv) rest
  · intro top rest cv hcond
    rw [selectStep, if_neg hcond]

/-- Witness for C2: two commands sharing start time 5, ids 1 and 2, and
a younger command; the rendered table (any K = 2 selection) lists the
id-1 command above the id-2 command, and a concrete heap step replaces
a null top. -/
theorem c2_witness :
    ((renderedCommands 2
        [⟨5, 2, ("b").toList⟩, ⟨5, 1, ("a").toList⟩, ⟨9, 3, ("c").toList⟩]).get
        ⟨0, by decide⟩).command_id ≤
      ((renderedCommands 2
        [⟨5, 2, ("b").toList⟩, ⟨5, 1, ("a").toList⟩, ⟨9, 3, ("c").toList⟩]).get
        ⟨1, by decide⟩).command_id
    ∧ (selectStep [(none : Option CommandValue)] ⟨5, 1, ("a").toList⟩).Perm
        [some ⟨5, 1, ("a").toList⟩] := by
  constructor
  · exact c2_table_stability.2.1 2
      [⟨5, 2, ("b").toList⟩, ⟨5, 1, ("a").toList⟩, ⟨9, 3, ("c").toList⟩]
      0 1 (by decide) (by decide) (by decide)
  · exact c2_table_stability.2.2.1 none [] ⟨5, 1, ("a").toList⟩ (Or.inl rfl)

/-! ### Claim C3: status-table render trace at t = 570 ms -/

/-- C3: with max_commands = 2 and refresh_timeout_ms = 100, after
SetStatus("some_status") and CommandStarted at 0, 250 and 570 ms with
descriptions command_1, command_2, command_3, the first UpdateTable(570)
emits exactly PrintOnNextLine("  0.5s | command_1"),
PrintOnNextLine("  0.3s | command_2"), MoveUp(2),
PrintOnCurrentLine("some_status"), Flush() — whatever iteration order
the unordered map chooses for the pending commands. -/
theorem c3_render_trace :
    ∀ iteration,
      iteration.Perm
        ((commandStarted (commandStarted (commandStarted
            (setStatus (tableInit 2 100) (("some_status").toList))
            1 0 (("command_1").toList)) 2 250 (("command_2").toList)) 3 570
            (("command_3").toList)).pending_commands.map Prod.snd) →
      (updateTable
          (commandStarted (commandStarted (commandStarted
            (setStatus (tableInit 2 100) (("some_status").toList))
            1 0 (("command_1").toList)) 2 250 (("command_2").toList)) 3 570
            (("command_3").toList))
          570 iteration).2 =
        [ROp.printOnNextLine (("  0.5s | command_1").toList),
         ROp.printOnNextLine (("  0.3s | command_2").toList),
         ROp.moveUp 2,
         ROp.printOnCurrentLine (("some_status").toList),
         ROp.flush] := by
  intro iteration hperm
  have e : (commandStarted (commandStarted (commandStarted
      (setStatus (tableInit 2 100) (("some_status").toList))
      1 0 (("command_1").toList)) 2 250 (("command_2").toList)) 3 570
      (("command_3").toList)).pending_commands.map Prod.snd =
      [⟨0, 1, ("command_1").toList⟩, ⟨250, 2, ("command_2").toList⟩,
       ⟨570, 3, ("command_3").toList⟩] := by rfl
  rw [e] at hperm
  have hm : iteration ∈ List.permutations'
      ([⟨0, 1, ("command_1").toList⟩, ⟨250, 2, ("command_2").toList⟩,
        ⟨570, 3, ("command_3").toList⟩] : List CommandValue) :=
    List.mem_permutations'.mpr hperm
  have hall : ∀ o ∈ List.permutations'
      ([⟨0, 1, ("command_1").toList⟩, ⟨250, 2, ("command_2").toList⟩,
        ⟨570, 3, ("command_3").toList⟩] : List CommandValue),
      (updateTable
          (commandStarted (commandStarted (commandStarted
            (setStatus (tableInit 2 100) (("some_status").toList))
            1 0 (("command_1").toList)) 2 250 (("command_2").toList)) 3 570
            (("command_3").toList))
          570 o).2 =
        [ROp.printOnNextLine (("  0.5s | command_1").toList),
         ROp.printOnNextLine (("  0.3s | command_2").toList),
         ROp.moveUp 2,
         ROp.printOnCurrentLine (("some_status").toList),
         ROp.flush] := by decide
  exact hall iteration hm

/-- Witness for C3 at the insertion-order iteration. -/
theorem c3_witness :
    (updateTable
        (commandStarted (commandStarted (commandStarted
          (setStatus (tableInit 2 100) (("some_status").toList))
          1 0 (("command_1").toList)) 2 250 (("command_2").toList)) 3 570
          (("command_3").toList))
        570
        [⟨0, 1, ("command_1").toList⟩, ⟨250, 2, ("command_2").toList⟩,
         ⟨570, 3, ("command_3").toList⟩]).2 =
      [ROp.printOnNextLine (("  0.5s | command_1").toList),
       ROp.printOnNextLine (("  0.3s | command_2").toList),
       ROp.moveUp 2,
       ROp.printOnCurrentLine (("some_status").toList),
       ROp.flush] :=
  c3_render_trace
    [⟨0, 1, ("command_1").toList⟩, ⟨250, 2, ("command_2").toList⟩,
     ⟨570, 3, ("command_3").toList⟩]
    (by decide)

/-! ### Claim C4: canonicalization of "./x/foo/../../bar.h"

The model is first validated against the full POSIX PathSamples /
UpDir / AbsolutePath expectations of canonical_path_test.cc. -/

example : (CanonicalPath.ofString (("").toList)).value = ("").toList := by decide
example : (CanonicalPath.ofString (("foo.h").toList)).value = ("foo.h").toList := by decide
example : (CanonicalPath.ofString (("./foo.h").toList)).value = ("foo.h").toList := by decide
example : (CanonicalPath.ofString (("./foo/./bar.h").toList)).value = ("foo/bar.h").toList := by
  decide
example : (CanonicalPath.ofString (("./x/foo/../bar.h").toList)).value = ("x/bar.h").toList := by
  decide
example : (CanonicalPath.ofString (("foo//bar").toList)).value = ("foo/bar").toList := by decide
example : (CanonicalPath.ofString (("foo//.//..///bar").toList)).value = ("bar").toList := by
  decide
example : (CanonicalPath.ofString (("./x/../foo/../../bar.h").toList)).value =
    ("../bar.h").toList := by decide
example : (CanonicalPath.ofString (("foo/./.").toList)).value = ("foo").toList := by decide
example : (CanonicalPath.ofString (("foo/bar/..").toList)).value = ("foo").toList := by decide
example : (CanonicalPath.ofString (("foo/.hidden_bar").toList)).value =
    ("foo/.hidden_bar").toList := by decide
example : (CanonicalPath.ofString (("/foo").toList)).value = ("/foo").toList := by decide
example : (CanonicalPath.ofString (("//foo").toList)).value = ("/foo").toList := by decide
example : (CanonicalPath.ofString (("..").toList)).value = ("..").toList := by decide
example : (CanonicalPath.ofString (("../").toList)).value = ("..").toList := by decide
example : (CanonicalPath.ofString (("../foo").toList)).value = ("../foo").toList := by decide
example : (CanonicalPath.ofString (("../..").toList)).value = ("../..").toList := by decide
example : (CanonicalPath.ofString (("../../").toList)).value = ("../..").toList := by decide
example : (CanonicalPath.ofString (("./../").toList)).value = ("..").toList := by decide
example : (CanonicalPath.ofString (("/../").toList)).value = ("/..").toList := by decide
example : (CanonicalPath.ofString (("/../..").toList)).value = ("/../..").toList := by decide
example : (CanonicalPath.ofString (("/../../").toList)).value = ("/../..").toList := by decide
example : (CanonicalPath.ofString (("/").toList)).value = ("/").toList := by decide
example : (CanonicalPath.ofString (("/foo/..").toList)).value = ("/").toList := by decide
example : (CanonicalPath.ofString ((".").toList)).value = (".").toList := by decide
example : (CanonicalPath.ofString (("./.").toList)).value = (".").toList := by decide
example : (CanonicalPath.ofString (("foo/..").toList)).value = (".").toList := by decide
example : (CanonicalPath.ofString (("foo/.._bar").toList)).value = ("foo/.._bar").toList := by
  decide
example : (CanonicalPath.ofString (("../../foo/bar.h").toList)).value =
    ("../../foo/bar.h").toList := by decide
example : (CanonicalPath.ofString (("test/../../foo/bar.h").toList)).value =
    ("../foo/bar.h").toList := by decide
example : (CanonicalPath.ofString (("/usr/include/stdio.h").toList)).value =
    ("/usr/include/stdio.h").toList := by decide

/-- Counterexample to C4 as stated: the canonical value of
`./x/foo/../../bar.h` is not `../bar.h` — both `..` segments resolve
against `foo` and `x` (canonical_path_test.cc, lines 63-64, expects
`bar.h` for exactly this input; the claimed value `../bar.h` belongs to
the neighbouring input `./x/../foo/../../bar.h` of lines 72-73). -/
theorem c4_counterexample :
    (CanonicalPath.ofString (("./x/foo/../../bar.h").toList)).value ≠ ("../bar.h").toList := by
  decide

/-- C4 amended: constructing a CanonicalPath from the input
`./x/foo/../../bar.h` produces the canonical value `bar.h` (the
canonicalizer eliminates the `.` segment and resolves each `..` against
the preceding segment, consuming `foo` and then `x`). -/
theorem c4_canonical_value :
    (CanonicalPath.ofString (("./x/foo/../../bar.h").toList)).value = ("bar.h").toList := by
  decide

/-! ### Claims C5 and C9: the Win32 subprocess supervisor -/

/-- The half of C5 that the code does satisfy: in every reachable
SubprocessSet state every member of the finished queue is Done. -/
theorem wdone_finished_invariant :
    ∀ s : WSubprocessSet, Relation.ReflTransGen WSetStep ⟨[], []⟩ s →
      ∀ p ∈ s.finished, wDone p = true := by
  intro s hs
  induction hs with
  | refl => intro p hp; simp at hp
  | @tail b c hab hstep ih =>
    cases hstep with
    | add use_console res p s3 heq =>
      intro q hq
      cases res with
      | ok =>
        simp only [wAdd, wStart, if_true] at heq
        simp only [Option.some.injEq, Prod.mk.injEq] at heq
        obtain ⟨-, hs3⟩ := heq
        rw [← hs3] at hq
        exact ih q hq
      | fileNotFound =>
        simp only [wAdd, wStart] at heq
        simp only [Bool.false_eq_true, if_false, Option.some.injEq, Prod.mk.injEq] at heq
        obtain ⟨hp, hs3⟩ := heq
        rw [← hs3] at hq
        simp only [] at hq
        rcases List.mem_append.mp hq with h1 | h1
        · exact ih q h1
        · rw [List.mem_singleton] at h1
          subst h1
          rfl
      | invalidParameter => simp [wAdd, wStart] at heq
      | otherError => simp [wAdd, wStart] at heq
    | work i isStdout ev =>
      intro q hq
      simp only [wDoWorkEvent] at hq
      cases hri : b.running[i]? with
      | none =>
        rw [hri] at hq
        exact ih q hq
      | some p =>
        rw [hri] at hq
        have hq2 : q ∈ (if wDone (wOnPipeReady p isStdout ev) = true then
            ({ running := b.running.eraseIdx i,
               finished := b.finished ++ [wOnPipeReady p isStdout ev] } : WSubprocessSet)
          else { running := b.running.set i (wOnPipeReady p isStdout ev),
                 finished := b.finished }).finished := hq
        by_cases hd : wDone (wOnPipeReady p isStdout ev) = true
        · rw [if_pos hd] at hq2
          rcases List.mem_append.mp hq2 with h1 | h1
          · exact ih q h1
          · rw [List.mem_singleton] at h1
            subst h1
            exact hd
        · rw [if_neg hd] at hq2
          exact ih q hq2
    | next =>
      intro q hq
      rw [wNextFinished] at hq
      cases hfin : b.finished with
      | nil =>
        rw [hfin] at hq
        exact ih q hq
      | cons p rest =>
        rw [hfin] at hq
        simp only [] at hq
        refine ih q ?_
        rw [hfin]
        exact List.mem_cons_of_mem p hq

/-- C5 divergence, evaluated on concrete runs of the Win32 code. A
subprocess that produced two stdout bytes and then closed both pipes is
returned by NextFinished with Done() true, but its combined buffer is
empty: its length is 0 while stdout.len + stderr.len = 2; equally the
program-not-found subprocess carries a 66-byte stderr buffer and an
empty combined buffer. OnPipeReady never appends to combined_output_,
contradicting the subprocess.h documentation of that field. -/
theorem c5_combined_output_divergence :
    wStart false CreateProcessResult.ok = some ⟨false, true, true, [], [], [], true⟩
    ∧ (wNextFinished (wDoWorkEvent (wDoWorkEvent (wDoWorkEvent
          (⟨[⟨false, true, true, [], [], [], true⟩], []⟩ : WSubprocessSet)
          0 true (PipeEvent.data (("hi").toList)))
          0 true PipeEvent.broken)
          0 false PipeEvent.broken)).1 =
        some ⟨false, false, false, ("hi").toList, [], [], true⟩
    ∧ wDone ⟨false, false, false, ("hi").toList, [], [], true⟩ = true
    ∧ (⟨false, false, false, ("hi").toList, [], [], true⟩ :
          WSubprocess).combined_output.length = 0
    ∧ (⟨false, false, false, ("hi").toList, [], [], true⟩ :
          WSubprocess).stdout_buf.length +
        (⟨false, false, false, ("hi").toList, [], [], true⟩ :
          WSubprocess).stderr_buf.length = 2
    ∧ wAdd ⟨[], []⟩ false CreateProcessResult.fileNotFound =
        some (⟨false, false, false, [], createProcessFailedMsg, [], false⟩,
              ⟨[], [⟨false, false, false, [], createProcessFailedMsg, [], false⟩]⟩)
    ∧ (⟨false, false, false, [], createProcessFailedMsg, [], false⟩ :
          WSubprocess).combined_output.length = 0
    ∧ (⟨false, false, false, [], createProcessFailedMsg, [], false⟩ :
          WSubprocess).stdout_buf.length +
        (⟨false, false, false, [], createProcessFailedMsg, [], false⟩ :
          WSubprocess).stderr_buf.length = 65 := by
  decide

/-- C9: when CreateProcess fails with ERROR_FILE_NOT_FOUND,
Subprocess::Start still returns success, both output pipes are closed
so Done() is immediately true, the stderr buffer holds the
"CreateProcess failed: ..." message, and SubprocessSet::Add places the
child-less subprocess directly into the finished queue, leaving the
running list untouched. -/
theorem c9_program_not_found (s : WSubprocessSet) :
    wStart false CreateProcessResult.fileNotFound =
      some ⟨false, false, false, [], createProcessFailedMsg, [], false⟩
    ∧ wDone ⟨false, false, false, [], createProcessFailedMsg, [], false⟩ = true
    ∧ wAdd s false CreateProcessResult.fileNotFound =
        some (⟨false, false, false, [], createProcessFailedMsg, [], false⟩,
              ⟨s.running,
               s.finished ++ [⟨false, false, false, [], createProcessFailedMsg, [], false⟩]⟩) :=
  ⟨rfl, rfl, rfl⟩

end NinjaSpec
